import Mathlib

/-!
Shallow embedding of the natural-language reminder parser from
src/web/src/ReminderApp.tsx (`detectCategory`, `detectPriority`,
`parseNaturalLanguage`) and proofs about it.

Strings are modelled as `List Char`; every regex of the source is
hand-compiled to an executable scanner with JavaScript semantics
(leftmost match, ordered alternation, greedy quantifiers with
backtracking where the source pattern needs it, `\b` = word/non-word
transition).  All matching is case-insensitive, mirroring the `/i`
flags and the `toLowerCase` preprocessing of the source, so scanners
compare lower-cased characters and patterns are written lower-case.

Dates are modelled as local calendar days counted from 1970-01-01
(`getDay` of day `z` is `(z + 4) % 7`); `formatLocalDate` is the
civil-from-days conversion producing the `YYYY-MM-DD` string exactly
as the source builds it.  The wall clock enters only through the
parameters `today`, `nowHour`, `nowMin` of `parseNaturalLanguage`.
-/

/-- Output priorities of the parser. -/
inductive Priority
  | low
  | medium
  | high
  | urgent
deriving DecidableEq, Repr

/-- Output categories of the parser. -/
inductive Category
  | work
  | family
  | health
  | errands
  | finance
  | social
  | learning
  | travel
  | home
  | other
deriving DecidableEq, Repr

/-- Recurrence kinds of the parser. -/
inductive Recurrence
  | none
  | daily
  | weekly
  | monthly
  | yearly
  | custom
deriving DecidableEq, Repr

/-- Recurrence units of the parser. -/
inductive RUnit
  | days
  | weeks
  | months
  | years
deriving DecidableEq, Repr

/-- The record returned by `parseNaturalLanguage` (the `ParsedReminder` shape of the source). -/
structure ParsedReminder where
  title : String
  dueDate : String
  dueTime : Option String
  priority : Priority
  category : Category
  recurrence : Recurrence
  recurrenceInterval : Option Nat
  recurrenceUnit : Option RUnit
  recurrenceDays : Option (List Nat)
  confidence : Nat
deriving DecidableEq, Repr

/-- Lower-case an ASCII character, as `String.prototype.toLowerCase` does on ASCII. -/
def lcChar (c : Char) : Char :=
  if 'A' ≤ c ∧ c ≤ 'Z' then Char.ofNat (c.toNat + 32) else c

/-- Upper-case an ASCII character, as `charAt(0).toUpperCase()` does on ASCII. -/
def ucChar (c : Char) : Char :=
  if 'a' ≤ c ∧ c ≤ 'z' then Char.ofNat (c.toNat - 32) else c

/-- Word character in the sense of the regex class `\w`. -/
def isWordChar (c : Char) : Bool :=
  c.isAlpha || c.isDigit || c == '_'

/-- Whitespace in the sense of the regex class `\s` (the subset that can occur in our inputs). -/
def isWs (c : Char) : Bool :=
  c == ' ' || c == '\t' || c == '\n' || c == '\r'

/-- Decimal digit test, the regex class `\d`. -/
def isDig (c : Char) : Bool :=
  '0' ≤ c && c ≤ '9'

/-- Numeric value of a digit character. -/
def digVal (c : Char) : Nat :=
  c.toNat - '0'.toNat

/-- Wordness of an optional character; the ends of the string count as non-word. -/
def isWordO : Option Char → Bool
  | Option.none => false
  | Option.some c => isWordChar c

/-- The regex `\b`: a word boundary sits between characters of different wordness. -/
def bdry (a b : Option Char) : Bool :=
  isWordO a != isWordO b

/-- Characters of a string (the chars the JS string holds). -/
def strData (s : String) : List Char :=
  s.data

/-- Case-insensitive literal match of pattern `p` (written lower-case) at the head of `s`;
returns the remaining suffix on success. -/
def litCI : List Char → List Char → Option (List Char)
  | [], s => some s
  | _ :: _, [] => none
  | p :: ps, c :: cs => if lcChar c == p then litCI ps cs else none

/-- Drop a maximal run of whitespace: the greedy `\s*`. -/
def skipWsL (s : List Char) : List Char :=
  s.dropWhile isWs

/-- The greedy `\s+`: require at least one whitespace character then take the maximal run. -/
def wsPlus : List Char → Option (List Char)
  | [] => none
  | c :: cs => if isWs c then some (skipWsL cs) else none

/-- Helper for `digitsPlus`: accumulate the maximal digit run. -/
def digitsRun : Nat → List Char → Nat × List Char
  | acc, [] => (acc, [])
  | acc, c :: cs => if isDig c then digitsRun (acc * 10 + digVal c) cs else (acc, c :: cs)

/-- The greedy `(\d+)` with its decimal value (the source applies `parseInt` to the capture). -/
def digitsPlus : List Char → Option (Nat × List Char)
  | [] => none
  | c :: cs => if isDig c then some (digitsRun (digVal c) cs) else none

/-- The greedy `\d{1,2}` with backtracking: try two digits, and if the continuation fails
try one digit, exactly as a backtracking regex engine does. -/
def dig12 (k : Nat → List Char → Option α) : List Char → Option α
  | c1 :: c2 :: rest =>
    if isDig c1 then
      if isDig c2 then
        match k (10 * digVal c1 + digVal c2) rest with
        | some r => some r
        | Option.none => k (digVal c1) (c2 :: rest)
      else k (digVal c1) (c2 :: rest)
    else none
  | [c1] => if isDig c1 then k (digVal c1) [] else none
  | [] => none

/-- Scan every start position left to right (the regex leftmost-match rule), feeding each
attempt the preceding character so it can evaluate `\b`. -/
def scanFrom (f : Option Char → List Char → Option α) : Option Char → List Char → Option α
  | prev, [] => f prev []
  | prev, c :: cs =>
    match f prev (c :: cs) with
    | some r => some r
    | Option.none => scanFrom f (some c) cs

/-- Ordered alternation of plain literals (no trailing boundary): first alternative whose
literal matches wins, as in a JS regex alternation. -/
def altPlain : List (List Char) → List Char → Option (List Char × List Char)
  | [], _ => none
  | a :: as', s =>
    match litCI a s with
    | some rest => some (a, rest)
    | Option.none => altPlain as' s

/-- Ordered alternation of literals each followed by `\b`: an alternative is accepted only
if the boundary after it holds, otherwise the engine backtracks to the next alternative. -/
def altWordAfter : List (List Char) → List Char → Option (List Char × List Char)
  | [], _ => none
  | a :: as', s =>
    match litCI a s with
    | some rest =>
      if bdry a.getLast? rest.head? then some (a, rest) else altWordAfter as' s
    | Option.none => altWordAfter as' s

/-- Attempt `\b<w>\b` at one position (`w` starts and ends with word characters). -/
def wordAt (w : List Char) (prev : Option Char) (s : List Char) : Option Unit :=
  if bdry prev s.head? then
    match litCI w s with
    | some rest => if bdry w.getLast? rest.head? then some () else none
    | Option.none => none
  else none

/-- The test of the regex `\b<w>\b` over the whole string. -/
def containsWord (w : List Char) (s : List Char) : Bool :=
  (scanFrom (wordAt w) none s).isSome

/-- Substring containment, i.e. the test of a regex with no `\b` anchors, or `String.includes`. -/
def hasSub (w : List Char) (s : List Char) : Bool :=
  (scanFrom (fun _ t => (litCI w t).map fun _ => ()) none s).isSome

/-- Test of a `\b(p₁|p₂|…)\b` keyword group: some alternative occurs as a whole word. -/
def anyWord (ws : List (List Char)) (s : List Char) : Bool :=
  ws.any fun w => containsWord w s

/-- Decimal digits of a number, via `Nat.repr`. -/
def natStr (n : Nat) : String :=
  Nat.repr n

/-- Two-digit zero padding, `String(n).padStart(2, "0")`. -/
def pad2 (n : Nat) : String :=
  if n < 10 then "0" ++ natStr n else natStr n

/-- The 12-hour to 24-hour conversion of the time handlers: `pm` with hour ≠ 12 adds 12,
`am` with hour 12 becomes 0 (`ap` is `some true` for pm, `some false` for am). -/
def conv12 (h : Nat) (ap : Option Bool) : Nat :=
  match ap with
  | some true => if h ≠ 12 then h + 12 else h
  | some false => if h = 12 then 0 else h
  | Option.none => h

/-- Build the `HH:MM` string from an hour value and the two captured minute characters. -/
def timeStr (h : Nat) (minCs : List Char) : String :=
  pad2 h ++ ":" ++ String.mk minCs

/-- Read the optional `(am|pm)?` at the head of `s` (`some true` = pm). -/
def amPmOpt (s : List Char) : Option Bool :=
  if (litCI (strData "am") s).isSome then some false
  else if (litCI (strData "pm") s).isSome then some true
  else none

/-- Attempt of `at (\d{1,2}):(\d{2})\s*(am|pm)?` at one position. -/
def timeP1At (_ : Option Char) (s : List Char) : Option String :=
  (litCI (strData "at ") s).bind fun r1 =>
    dig12 (fun h r2 =>
      match r2 with
      | ':' :: m1 :: m2 :: r3 =>
        if isDig m1 && isDig m2 then
          some (timeStr (conv12 h (amPmOpt (skipWsL r3))) [m1, m2])
        else none
      | _ => none) r1

/-- Attempt of `at (\d{1,2})\s*(am|pm)` at one position. -/
def timeP2At (_ : Option Char) (s : List Char) : Option String :=
  (litCI (strData "at ") s).bind fun r1 =>
    dig12 (fun h r2 =>
      match amPmOpt (skipWsL r2) with
      | some b => some (timeStr (conv12 h (some b)) ['0', '0'])
      | Option.none => none) r1

/-- Attempt of `(\d{1,2}):(\d{2})\s*(am|pm)` at one position. -/
def timeP3At (_ : Option Char) (s : List Char) : Option String :=
  dig12 (fun h r2 =>
    match r2 with
    | ':' :: m1 :: m2 :: r3 =>
      if isDig m1 && isDig m2 then
        match amPmOpt (skipWsL r3) with
        | some b => some (timeStr (conv12 h (some b)) [m1, m2])
        | Option.none => none
      else none
    | _ => none) s

/-- Attempt of `(\d{1,2})(am|pm)` at one position. -/
def timeP4At (_ : Option Char) (s : List Char) : Option String :=
  dig12 (fun h r2 =>
    match amPmOpt r2 with
    | some b => some (timeStr (conv12 h (some b)) ['0', '0'])
    | Option.none => none) s

/-- The numeric time patterns in their source order; the first pattern that matches
anywhere in the input wins (the loop breaks after the first hit). -/
def numericTime (cs : List Char) : Option String :=
  match scanFrom timeP1At none cs with
  | some t => some t
  | Option.none =>
    match scanFrom timeP2At none cs with
    | some t => some t
    | Option.none =>
      match scanFrom timeP3At none cs with
      | some t => some t
      | Option.none => scanFrom timeP4At none cs

/-- Attempt of `\b(early\s*)?morning\b` at one position (greedy optional `early`). -/
def morningAt (prev : Option Char) (s : List Char) : Option Unit :=
  if bdry prev s.head? then
    match (litCI (strData "early") s).bind fun r =>
        litCI (strData "morning") (skipWsL r) with
    | some rest => if bdry (some 'g') rest.head? then some () else morningBare s
    | Option.none => morningBare s
  else none
where
  morningBare (s : List Char) : Option Unit :=
    match litCI (strData "morning") s with
    | some rest => if bdry (some 'g') rest.head? then some () else none
    | Option.none => none

/-- Test of `\b(early\s*)?morning\b`. -/
def morningTest (cs : List Char) : Bool :=
  (scanFrom morningAt none cs).isSome

/-- The named-moment chain of the time extractor, with its per-branch confidence increment. -/
def namedTime (cs : List Char) : Option (String × Nat) :=
  if containsWord (strData "midnight") cs then some ("00:00", 15)
  else if containsWord (strData "noon") cs || containsWord (strData "midday") cs then
    some ("12:00", 15)
  else if morningTest cs && !hasSub (strData "this morning") cs then
    some (if hasSub (strData "early") cs then "06:00" else "09:00", 10)
  else if containsWord (strData "evening") cs then some ("18:00", 10)
  else if containsWord (strData "afternoon") cs then some ("14:00", 10)
  else if containsWord (strData "night") cs && !hasSub (strData "tonight") cs then
    some ("21:00", 10)
  else if containsWord (strData "end of day") cs || containsWord (strData "eod") cs then
    some ("17:00", 10)
  else none

/-- The whole time extractor: named moments first; numeric patterns only if no named
moment set the time.  Returns the optional `HH:MM` and the confidence increment. -/
def timePhase (cs : List Char) : Option String × Nat :=
  match namedTime cs with
  | some (t, c) => (some t, c)
  | Option.none =>
    match numericTime cs with
    | some t => (some t, 20)
    | Option.none => (none, 0)

/-- Civil date (year, month, day) of a day count from 1970-01-01, the standard
days-to-civil conversion; this is what the local `getFullYear`/`getMonth`/`getDate`
fields of a JS `Date` holding that local day are. -/
def civilOfDay (z : Nat) : Nat × Nat × Nat :=
  let z' := z + 719468
  let era := z' / 146097
  let doe := z' % 146097
  let yoe := (doe - doe / 1460 + doe / 36524 - doe / 146096) / 365
  let y := yoe + era * 400
  let doy := doe - (365 * yoe + yoe / 4 - yoe / 100)
  let mp := (5 * doy + 2) / 153
  let d := doy - (153 * mp + 2) / 5 + 1
  let m := if mp < 10 then mp + 3 else mp - 9
  (if m ≤ 2 then y + 1 else y, m, d)

/-- The `formatLocalDate` helper of the source: local `YYYY-MM-DD` of a day count. -/
def formatLocalDate (z : Nat) : String :=
  let c := civilOfDay z
  natStr c.1 ++ "-" ++ pad2 c.2.1 ++ "-" ++ pad2 c.2.2

/-- Local weekday (0 = Sunday … 6 = Saturday) of a day count, `Date.prototype.getDay`. -/
def dayOfWeek (z : Nat) : Nat :=
  (z + 4) % 7

/-- Full weekday names, index 0 = Sunday, in the order of the source `days` array. -/
def fullDays7 : List (List Char) :=
  [strData "sunday", strData "monday", strData "tuesday", strData "wednesday",
   strData "thursday", strData "friday", strData "saturday"]

/-- Three-letter weekday names of the source `shortDays` array. -/
def shortDays7 : List (List Char) :=
  [strData "sun", strData "mon", strData "tue", strData "wed",
   strData "thu", strData "fri", strData "sat"]

/-- Attempt of `\b(on\s+)?(<full>|<short>)\b` at one position: greedy optional `on`
followed by the full name or the abbreviation with a trailing boundary. -/
def dayNameAt (full short : List Char) (prev : Option Char) (s : List Char) : Option Unit :=
  if bdry prev s.head? then
    match (litCI (strData "on") s).bind wsPlus with
    | some r1 =>
      match altWordAfter [full, short] r1 with
      | some _ => some ()
      | Option.none =>
        match altWordAfter [full, short] s with
        | some _ => some ()
        | Option.none => none
    | Option.none =>
      match altWordAfter [full, short] s with
      | some _ => some ()
      | Option.none => none
  else none

/-- Test of the per-weekday regex `\b(on\s+)?(<full>|<short>)\b` of the date extractor. -/
def dayTestIdx (i : Nat) (cs : List Char) : Bool :=
  (scanFrom (dayNameAt (fullDays7.getD i []) (shortDays7.getD i [])) none cs).isSome

/-- The weekday for-loop of the date extractor: the first index 0…6 (Sunday…Saturday)
whose regex matches, `break` stopping at the first hit. -/
def firstDay (cs : List Char) : Option Nat :=
  if dayTestIdx 0 cs then some 0
  else if dayTestIdx 1 cs then some 1
  else if dayTestIdx 2 cs then some 2
  else if dayTestIdx 3 cs then some 3
  else if dayTestIdx 4 cs then some 4
  else if dayTestIdx 5 cs then some 5
  else if dayTestIdx 6 cs then some 6
  else none

/-- Attempt of `in (\d+) days?` (resp. `hours?`, `weeks?`) at one position: the literal
`in`, one space, the digits, one space and the unit word; the optional `s` needs no
boundary so it does not constrain the match. -/
def inUnitAt (unit : List Char) (_ : Option Char) (s : List Char) : Option Nat :=
  (litCI (strData "in ") s).bind fun r1 =>
    (digitsPlus r1).bind fun nr =>
      match litCI (' ' :: unit) nr.2 with
      | some _ => some nr.1
      | Option.none => none

/-- Captured `N` of the leftmost `in (\d+) days?` match. -/
def inDaysM (cs : List Char) : Option Nat :=
  scanFrom (inUnitAt (strData "day")) none cs

/-- Captured `N` of the leftmost `in (\d+) hours?` match. -/
def inHoursM (cs : List Char) : Option Nat :=
  scanFrom (inUnitAt (strData "hour")) none cs

/-- Captured `N` of the leftmost `in (\d+) weeks?` match. -/
def inWeeksM (cs : List Char) : Option Nat :=
  scanFrom (inUnitAt (strData "week")) none cs

/-- Which of the three `in N …` patterns fires, in source order (days, hours, weeks). -/
inductive InSig
  | inDays (n : Nat)
  | inHours (n : Nat)
  | inWeeks (n : Nat)
deriving DecidableEq, Repr

/-- The `if/else if` chain over the three `in N …` patterns. -/
def inMatch (cs : List Char) : Option InSig :=
  match inDaysM cs with
  | some n => some (InSig.inDays n)
  | Option.none =>
    match inHoursM cs with
    | some n => some (InSig.inHours n)
    | Option.none =>
      match inWeeksM cs with
      | some n => some (InSig.inWeeks n)
      | Option.none => none

/-- The purely textual outcome of the date extractor: which branch of the source
`if/else` chain applies, and for the final `else` both the `in N …` result and the
weekday-loop result (the two sub-steps are sequential, not exclusive, in the source). -/
inductive DateSig
  | todayK
  | tonightK
  | tomorrowK
  | nextWeekK
  | weekendK
  | thisMorningK
  | thisAfternoonK
  | thisEveningK
  | rest (iSig : Option InSig) (wk : Option Nat) (nxt : Bool)
deriving DecidableEq, Repr

/-- Textual analysis of the date extractor, mirroring the source branch conditions
(`String.includes` tests, in order). -/
def dateSignal (cs : List Char) : DateSig :=
  if hasSub (strData "today") cs then DateSig.todayK
  else if hasSub (strData "tonight") cs then DateSig.tonightK
  else if hasSub (strData "tomorrow") cs then DateSig.tomorrowK
  else if hasSub (strData "next week") cs then DateSig.nextWeekK
  else if hasSub (strData "this weekend") cs then DateSig.weekendK
  else if hasSub (strData "this morning") cs then DateSig.thisMorningK
  else if hasSub (strData "this afternoon") cs then DateSig.thisAfternoonK
  else if hasSub (strData "this evening") cs then DateSig.thisEveningK
  else DateSig.rest (inMatch cs) (firstDay cs) (containsWord (strData "next") cs)

/-- Result triple of the date extractor: due date, due time, confidence increment. -/
structure DateR where
  date : String
  time : Option String
  conf : Nat
deriving DecidableEq, Repr

/-- The weekday-resolution arithmetic of the source loop:
`diff = (targetDow - currentDow + 7) % 7`, promoted to a full week when it is 0 and the
word `next` was seen. -/
def weekdayDiff (i dow : Nat) (nxt : Bool) : Nat :=
  let d0 := (i + 7 - dow) % 7
  if d0 = 0 ∧ nxt then 7 else d0

/-- Evaluate a date signal against the clock, exactly as the source branches do:
`tonight`/`this …` fill the time only if unset (`dueTime = dueTime || d`), `in N hours`
overwrites it, and the weekday loop overwrites the date computed by the `in N …` step
while keeping its time and adding its own confidence increment. -/
def applyDateSig (sig : DateSig) (today nowHour nowMin : Nat) (dt0 : Option String) : DateR :=
  match sig with
  | DateSig.todayK => ⟨formatLocalDate today, dt0, 20⟩
  | DateSig.tonightK => ⟨formatLocalDate today, some (dt0.getD "20:00"), 20⟩
  | DateSig.tomorrowK => ⟨formatLocalDate (today + 1), dt0, 20⟩
  | DateSig.nextWeekK => ⟨formatLocalDate (today + 7), dt0, 15⟩
  | DateSig.weekendK =>
    let dow := dayOfWeek today
    ⟨formatLocalDate (if dow = 0 ∨ dow = 6 then today else today + (6 - dow)), dt0, 15⟩
  | DateSig.thisMorningK => ⟨formatLocalDate today, some (dt0.getD "09:00"), 15⟩
  | DateSig.thisAfternoonK => ⟨formatLocalDate today, some (dt0.getD "14:00"), 15⟩
  | DateSig.thisEveningK => ⟨formatLocalDate today, some (dt0.getD "18:00"), 15⟩
  | DateSig.rest iSig wk nxt =>
    let base : DateR :=
      match iSig with
      | some (InSig.inDays n) => ⟨formatLocalDate (today + n), dt0, 15⟩
      | some (InSig.inHours n) =>
        let tot := nowHour + n
        ⟨formatLocalDate (today + tot / 24), some (pad2 (tot % 24) ++ ":" ++ pad2 nowMin), 15⟩
      | some (InSig.inWeeks n) => ⟨formatLocalDate (today + 7 * n), dt0, 15⟩
      | Option.none => ⟨formatLocalDate today, dt0, 0⟩
    match wk with
    | some i =>
      ⟨formatLocalDate (today + weekdayDiff i (dayOfWeek today) nxt), base.time, base.conf + 15⟩
    | Option.none => base

/-- The whole date extractor. -/
def datePhase (cs : List Char) (today nowHour nowMin : Nat) (dt0 : Option String) : DateR :=
  applyDateSig (dateSignal cs) today nowHour nowMin dt0

/-- The 17-way weekday-name alternation of the recurrence regexes, in source order:
`sunday|sun|monday|mon|tuesday|tue|tues|wednesday|wed|thursday|thu|thur|thurs|friday|fri|saturday|sat`. -/
def dayAlts17 : List (List Char) :=
  [strData "sunday", strData "sun", strData "monday", strData "mon",
   strData "tuesday", strData "tue", strData "tues",
   strData "wednesday", strData "wed",
   strData "thursday", strData "thu", strData "thur", strData "thurs",
   strData "friday", strData "fri",
   strData "saturday", strData "sat"]

/-- The `dayNameToNum` lookup table of the source. -/
def dayNameToNum (w : List Char) : Option Nat :=
  if w = strData "sunday" ∨ w = strData "sun" then some 0
  else if w = strData "monday" ∨ w = strData "mon" then some 1
  else if w = strData "tuesday" ∨ w = strData "tue" ∨ w = strData "tues" then some 2
  else if w = strData "wednesday" ∨ w = strData "wed" then some 3
  else if w = strData "thursday" ∨ w = strData "thu" ∨ w = strData "thur" ∨
          w = strData "thurs" then some 4
  else if w = strData "friday" ∨ w = strData "fri" then some 5
  else if w = strData "saturday" ∨ w = strData "sat" then some 6
  else none

/-- One global-scan step of `extractDays`: collect the weekday numbers of every
non-overlapping `\b(<17 names>)\b` match, deduplicating on the fly as the source loop
does (`if (!days.includes(dayNum)) days.push(dayNum)`).  `fuel` bounds the recursion;
`extractScanAll` supplies enough of it. -/
def extractScan : Nat → Option Char → List Char → List Nat → List Nat
  | 0, _, _, acc => acc
  | _ + 1, _, [], acc => acc
  | fuel + 1, prev, c :: cs, acc =>
    if bdry prev (some c) then
      match altWordAfter dayAlts17 (c :: cs) with
      | some (a, rest) =>
        let acc' :=
          match dayNameToNum a with
          | some dn => if dn ∈ acc then acc else acc ++ [dn]
          | Option.none => acc
        extractScan fuel a.getLast? rest acc'
      | Option.none => extractScan fuel (some c) cs acc
    else extractScan fuel (some c) cs acc

/-- All weekday numbers matched in `t`, deduplicated in first-come order. -/
def extractScanAll (t : List Char) : List Nat :=
  extractScan t.length none t []

/-- The `extractDays` helper of the source: scan, deduplicate, then sort ascending
(`days.sort((a, b) => a - b)`). -/
def extractDays (t : List Char) : List Nat :=
  List.insertionSort (· ≤ ·) (extractScanAll t)

/-- The unit alternation of the explicit-interval regex, in source order. -/
def unitAlts8 : List (List Char) :=
  [strData "day", strData "days", strData "week", strData "weeks",
   strData "month", strData "months", strData "year", strData "years"]

/-- Attempt of `every\s+(\d+)\s+(day|days|week|weeks|month|months|year|years)` at one
position, returning the two captures. -/
def everyNUnitAt (_ : Option Char) (s : List Char) : Option (Nat × List Char) :=
  (litCI (strData "every") s).bind fun r1 =>
    (wsPlus r1).bind fun r2 =>
      (digitsPlus r2).bind fun nr =>
        (wsPlus nr.2).bind fun r3 =>
          (altPlain unitAlts8 r3).map fun ur => (nr.1, ur.1)

/-- The `customRecurrenceMatch` of the source: leftmost match of the explicit
`every N unit` pattern with its captured number and unit. -/
def everyNUnit (cs : List Char) : Option (Nat × List Char) :=
  scanFrom everyNUnitAt none cs

/-- Prefix test on the captured unit string (`unit.startsWith(...)` in the source). -/
def startsWithL (p w : List Char) : Bool :=
  (litCI p w).isSome

/-- Result tuple of the recurrence inferencer. -/
structure RecR where
  kind : Recurrence
  int : Option Nat
  unit : Option RUnit
  days : Option (List Nat)
  conf : Nat
deriving DecidableEq, Repr

/-- The all-defaults recurrence result (nothing matched). -/
def noRec : RecR :=
  ⟨Recurrence.none, none, none, none, 0⟩

/-- Branch 1 of the recurrence inferencer: dispatch on the captured unit via
`startsWith`, interval = the captured number, `custom` unless the number is 1.
The final case is unreachable for captures of the actual alternation but mirrors the
source, where only `recurrenceInterval` would have been assigned. -/
def explicitRule (n : Nat) (u : List Char) : RecR :=
  if startsWithL (strData "day") u then
    ⟨if n = 1 then Recurrence.daily else Recurrence.custom, some n, some RUnit.days, none, 15⟩
  else if startsWithL (strData "week") u then
    ⟨if n = 1 then Recurrence.weekly else Recurrence.custom, some n, some RUnit.weeks, none, 15⟩
  else if startsWithL (strData "month") u then
    ⟨if n = 1 then Recurrence.monthly else Recurrence.custom, some n, some RUnit.months, none, 15⟩
  else if startsWithL (strData "year") u then
    ⟨if n = 1 then Recurrence.yearly else Recurrence.custom, some n, some RUnit.years, none, 15⟩
  else ⟨Recurrence.none, some n, none, none, 15⟩

/-- One repetition step of `(\s*(,|and)\s*(<day alternation>))`: separator then a day
name; nothing follows the repetition in the source regexes, so greedy repetition needs
no backtracking against a continuation. -/
def mdRepStep (s : List Char) : Option (List Char) :=
  let r1 := skipWsL s
  match (match litCI (strData ",") r1 with
         | some r => some r
         | Option.none => litCI (strData "and") r1) with
  | some r2 =>
    match altPlain dayAlts17 (skipWsL r2) with
    | some (_, r3) => some r3
    | Option.none => none
  | Option.none => none

/-- Greedy repetitions of `mdRepStep` (fuel-bounded; each step consumes at least one
character, so `s.length` fuel suffices). -/
def mdReps : Nat → List Char → List Char
  | 0, s => s
  | fuel + 1, s =>
    match mdRepStep s with
    | some r => mdReps fuel r
    | Option.none => s

/-- Attempt of the multi-day test regex
`\bevery\s+(<17>)(\s*(,|and)\s*(<17>))+` at one position. -/
def multiDayTestAt (prev : Option Char) (s : List Char) : Option Unit :=
  if bdry prev s.head? then
    (litCI (strData "every") s).bind fun r1 =>
      (wsPlus r1).bind fun r2 =>
        (altPlain dayAlts17 r2).bind fun ar =>
          (mdRepStep ar.2).map fun _ => ()
  else none

/-- The multi-day weekly test of branch 2. -/
def multiDayTest (cs : List Char) : Bool :=
  (scanFrom multiDayTestAt none cs).isSome

/-- Attempt of the multi-day capture regex
`every\s+((?:<17>)(?:\s*(?:,|and)\s*(?:<17>))*)` at one position: no leading `\b` and
zero or more repetitions; returns the capture-group substring (the whole day list). -/
def multiDayMatchAt (_ : Option Char) (s : List Char) : Option (List Char) :=
  (litCI (strData "every") s).bind fun r1 =>
    (wsPlus r1).bind fun r2 =>
      (altPlain dayAlts17 r2).map fun ar =>
        let r4 := mdReps ar.2.length ar.2
        r2.take (r2.length - r4.length)

/-- The `daysMatch` capture of branch 2: the leftmost day-list substring. -/
def multiDayMatch (cs : List Char) : Option (List Char) :=
  scanFrom multiDayMatchAt none cs

/-- Attempt of the single-day test regex `\bevery\s+(<17>)\b` at one position. -/
def singleDayTestAt (prev : Option Char) (s : List Char) : Option Unit :=
  if bdry prev s.head? then
    (litCI (strData "every") s).bind fun r1 =>
      (wsPlus r1).bind fun r2 =>
        (altWordAfter dayAlts17 r2).map fun _ => ()
  else none

/-- The single-day weekly test of branch 2b. -/
def singleDayTest (cs : List Char) : Bool :=
  (scanFrom singleDayTestAt none cs).isSome

/-- Attempt of the single-day capture regex `every\s+(<17>)\b` (no leading `\b`),
returning the captured day name. -/
def singleDayMatchAt (_ : Option Char) (s : List Char) : Option (List Char) :=
  (litCI (strData "every") s).bind fun r1 =>
    (wsPlus r1).bind fun r2 =>
      (altWordAfter dayAlts17 r2).map fun ar => ar.1

/-- The `singleDayMatch` capture of branch 2b. -/
def singleDayMatch (cs : List Char) : Option (List Char) :=
  scanFrom singleDayMatchAt none cs

/-- Attempt of `\bevery\s*<u>\b` at one position (the bare-keyword patterns of branch 3,
whose `\s*` may be empty). -/
def everyWsWordAt (u : List Char) (prev : Option Char) (s : List Char) : Option Unit :=
  if bdry prev s.head? then
    (litCI (strData "every") s).bind fun r1 =>
      match litCI u (skipWsL r1) with
      | some rest => if bdry u.getLast? rest.head? then some () else none
      | Option.none => none
  else none

/-- Test of `\bevery\s*<u>\b`. -/
def everyWsWord (u : List Char) (cs : List Char) : Bool :=
  (scanFrom (everyWsWordAt u) none cs).isSome

/-- Test of `bi-?weekly` (resp. `bi-?monthly`) as a plain substring pattern. -/
def biPat (u : List Char) (cs : List Char) : Bool :=
  hasSub (strData "bi-" ++ u) cs || hasSub ('b' :: 'i' :: u) cs

/-- Test of the source pattern `pay.*off`: `pay` followed later on the same line by
`off` (the regex `.` does not cross line terminators). -/
def payOffSub (cs : List Char) : Bool :=
  (scanFrom (fun _ t =>
    (litCI (strData "pay") t).bind fun r =>
      if hasSub (strData "off") (r.takeWhile fun c => !(c == '\n' || c == '\r')) then
        some ()
      else none) none cs).isSome

/-- Attempt of `\bwater\s*(the\s*)?(plants?|flowers?|garden)\b` at one position. -/
def waterPlantsAt (prev : Option Char) (s : List Char) : Option Unit :=
  if bdry prev s.head? then
    (litCI (strData "water") s).bind fun r1 =>
      let r2 := skipWsL r1
      match (litCI (strData "the") r2).bind fun r => waterObj (skipWsL r) with
      | some _ => some ()
      | Option.none => waterObj r2
  else none
where
  waterObj (t : List Char) : Option Unit :=
    match optsAfter (strData "plant") t with
    | some _ => some ()
    | Option.none =>
      match optsAfter (strData "flower") t with
      | some _ => some ()
      | Option.none =>
        match litCI (strData "garden") t with
        | some rest => if bdry (some 'n') rest.head? then some () else none
        | Option.none => none
  optsAfter (base : List Char) (t : List Char) : Option Unit :=
    (litCI base t).bind fun rest =>
      match rest with
      | c :: cs' =>
        if lcChar c == 's' then
          if bdry (some 's') cs'.head? then some ()
          else if bdry base.getLast? rest.head? then some () else none
        else if bdry base.getLast? rest.head? then some () else none
      | [] => if bdry base.getLast? none then some () else none

/-- Test of the water-the-plants pattern. -/
def waterPlants (cs : List Char) : Bool :=
  (scanFrom waterPlantsAt none cs).isSome

/-- Attempt of `\boil\s*change\b` at one position. -/
def oilChangeAt (prev : Option Char) (s : List Char) : Option Unit :=
  if bdry prev s.head? then
    (litCI (strData "oil") s).bind fun r1 =>
      match litCI (strData "change") (skipWsL r1) with
      | some rest => if bdry (some 'e') rest.head? then some () else none
      | Option.none => none
  else none

/-- Test of `\boil\s*change\b`. -/
def oilChange (cs : List Char) : Bool :=
  (scanFrom oilChangeAt none cs).isSome

/-- The semantic-inference chain of the recurrence inferencer (branch 4 of the source),
reached only when no explicit pattern matched. -/
def semanticRec (cs : List Char) : RecR :=
  if containsWord (strData "birthday") cs then
    ⟨Recurrence.yearly, some 1, some RUnit.years, none, 10⟩
  else if containsWord (strData "anniversary") cs then
    ⟨Recurrence.yearly, some 1, some RUnit.years, none, 10⟩
  else if anyWord [strData "medication", strData "medicine", strData "vitamin",
      strData "vitamins", strData "pill", strData "pills", strData "meds"] cs then
    ⟨Recurrence.daily, some 1, some RUnit.days, none, 8⟩
  else if anyWord [strData "rent", strData "mortgage"] cs &&
      !(hasSub (strData "paid") cs || payOffSub cs) then
    ⟨Recurrence.monthly, some 1, some RUnit.months, none, 8⟩
  else if anyWord [strData "paycheck", strData "payday", strData "salary"] cs then
    ⟨Recurrence.custom, some 2, some RUnit.weeks, none, 6⟩
  else if anyWord [strData "subscription", strData "renewal", strData "renew"] cs then
    ⟨Recurrence.monthly, some 1, some RUnit.months, none, 6⟩
  else if anyWord [strData "trash", strData "garbage", strData "recycling",
      strData "bins"] cs then
    ⟨Recurrence.weekly, some 1, some RUnit.weeks, none, 8⟩
  else if waterPlants cs then
    ⟨Recurrence.weekly, some 1, some RUnit.weeks, none, 6⟩
  else if anyWord [strData "gym", strData "workout", strData "exercise"] cs then
    ⟨Recurrence.custom, some 2, some RUnit.days, none, 5⟩
  else if oilChange cs then
    ⟨Recurrence.custom, some 3, some RUnit.months, none, 6⟩
  else if containsWord (strData "haircut") cs then
    ⟨Recurrence.monthly, some 1, some RUnit.months, none, 5⟩
  else if containsWord (strData "dentist") cs &&
      !(hasSub (strData "appointment") cs || hasSub (strData "tomorrow") cs ||
        hasSub (strData "today") cs) then
    ⟨Recurrence.custom, some 6, some RUnit.months, none, 5⟩
  else noRec

/-- Branches 2 through 4 of the recurrence inferencer, reached when the explicit
`every N unit` pattern did not match, in the branch order of the source. -/
def recNoExplicit (cs : List Char) : RecR :=
  if multiDayTest cs then
      ⟨Recurrence.weekly, some 1, some RUnit.weeks, (multiDayMatch cs).map extractDays, 15⟩
    else if singleDayTest cs then
      ⟨Recurrence.weekly, some 1, some RUnit.weeks,
        (singleDayMatch cs).bind fun nm => (dayNameToNum nm).map fun d => [d], 15⟩
    else if everyWsWord (strData "day") cs || hasSub (strData "daily") cs then
      ⟨Recurrence.daily, some 1, some RUnit.days, none, 10⟩
    else if everyWsWord (strData "week") cs || hasSub (strData "weekly") cs then
      ⟨Recurrence.weekly, some 1, some RUnit.weeks, none, 10⟩
    else if everyWsWord (strData "month") cs || hasSub (strData "monthly") cs then
      ⟨Recurrence.monthly, some 1, some RUnit.months, none, 10⟩
    else if everyWsWord (strData "year") cs || hasSub (strData "yearly") cs ||
        hasSub (strData "annually") cs then
      ⟨Recurrence.yearly, some 1, some RUnit.years, none, 10⟩
    else if biPat (strData "weekly") cs || hasSub (strData "every other week") cs ||
        hasSub (strData "every 2 weeks") cs then
      ⟨Recurrence.custom, some 2, some RUnit.weeks, none, 12⟩
    else if biPat (strData "monthly") cs || hasSub (strData "every other month") cs ||
        hasSub (strData "every 2 months") cs then
      ⟨Recurrence.custom, some 2, some RUnit.months, none, 12⟩
    else semanticRec cs

/-- The whole recurrence inferencer: the explicit `every N unit` branch first, then the
rest of the chain. -/
def recurrencePhase (cs : List Char) : RecR :=
  match everyNUnit cs with
  | some nu => explicitRule nu.1 nu.2
  | Option.none => recNoExplicit cs

/-- Keyword groups of `detectCategory`, in the order the source checks them. -/
def workKw : List (List Char) :=
  [strData "meeting", strData "email", strData "report", strData "deadline",
   strData "project", strData "client", strData "boss", strData "office",
   strData "presentation", strData "call with", strData "sync", strData "standup",
   strData "review", strData "submit", strData "proposal"]

/-- Family keyword group. -/
def familyKw : List (List Char) :=
  [strData "mom", strData "dad", strData "mother", strData "father", strData "sister",
   strData "brother", strData "family", strData "kids", strData "children",
   strData "son", strData "daughter", strData "wife", strData "husband",
   strData "grandma", strData "grandpa", strData "parent", strData "anniversary"]

/-- Health keyword group. -/
def healthKw : List (List Char) :=
  [strData "doctor", strData "dentist", strData "gym", strData "workout",
   strData "exercise", strData "medicine", strData "prescription",
   strData "appointment", strData "therapy", strData "vitamin", strData "checkup",
   strData "hospital", strData "health"]

/-- Errands keyword group. -/
def errandsKw : List (List Char) :=
  [strData "buy", strData "grocery", strData "store", strData "shop",
   strData "pick up", strData "drop off", strData "return", strData "mail",
   strData "post office", strData "bank", strData "dry clean", strData "repair"]

/-- Finance keyword group. -/
def financeKw : List (List Char) :=
  [strData "pay", strData "bill", strData "invoice", strData "tax", strData "budget",
   strData "investment", strData "rent", strData "mortgage", strData "insurance",
   strData "account"]

/-- Social keyword group. -/
def socialKw : List (List Char) :=
  [strData "party", strData "dinner", strData "lunch", strData "coffee",
   strData "friend", strData "birthday", strData "celebration", strData "event",
   strData "hangout", strData "catch up"]

/-- Learning keyword group. -/
def learningKw : List (List Char) :=
  [strData "study", strData "class", strData "course", strData "book", strData "read",
   strData "learn", strData "homework", strData "exam", strData "test",
   strData "practice", strData "lesson", strData "tutorial"]

/-- Travel keyword group. -/
def travelKw : List (List Char) :=
  [strData "flight", strData "hotel", strData "trip", strData "vacation",
   strData "travel", strData "pack", strData "passport", strData "booking",
   strData "reservation", strData "airport"]

/-- Home keyword group. -/
def homeKw : List (List Char) :=
  [strData "clean", strData "laundry", strData "dishes", strData "fix",
   strData "repair", strData "garden", strData "lawn", strData "organize",
   strData "declutter", strData "cook", strData "water plants"]

/-- The `detectCategory` classifier: first keyword group that matches wins. -/
def detectCategory (text : String) : Category :=
  let cs := strData text
  if anyWord workKw cs then Category.work
  else if anyWord familyKw cs then Category.family
  else if anyWord healthKw cs then Category.health
  else if anyWord errandsKw cs then Category.errands
  else if anyWord financeKw cs then Category.finance
  else if anyWord socialKw cs then Category.social
  else if anyWord learningKw cs then Category.learning
  else if anyWord travelKw cs then Category.travel
  else if anyWord homeKw cs then Category.home
  else Category.other

/-- Urgent keyword group of `detectPriority`. -/
def urgentKw : List (List Char) :=
  [strData "urgent", strData "asap", strData "immediately", strData "critical",
   strData "emergency"]

/-- High-priority keyword group. -/
def highKw : List (List Char) :=
  [strData "important", strData "high priority", strData "crucial", strData "must"]

/-- Low-priority keyword group. -/
def lowKw : List (List Char) :=
  [strData "low priority", strData "whenever", strData "no rush", strData "eventually"]

/-- The `detectPriority` classifier of the source.  Its `dueDate` parameter is declared
but never read: priority comes only from explicit keywords. -/
def detectPriority (text : String) (dueDate : String) : Priority :=
  let cs := strData text
  let _ := dueDate
  if anyWord urgentKw cs then Priority.urgent
  else if anyWord highKw cs then Priority.high
  else if anyWord lowKw cs then Priority.low
  else Priority.medium

/-- The apostrophe character (U+0027), built numerically. -/
def apos : Char :=
  Char.ofNat 39

/-- A strip rule of the title pipeline: a position matcher returning the suffix after
the matched portion.  `anchored` rules correspond to `^…` patterns, which with no `m`
flag match at index 0 only. -/
structure StripRule where
  anchored : Bool
  m : Option Char → List Char → Option (List Char)

/-- Greedy `(to\s+)?`: consume `to` plus whitespace if possible, else nothing
(nothing follows it in the prefix-strip patterns, so no backtracking arises). -/
def toOpt (s : List Char) : List Char :=
  match (litCI (strData "to") s).bind wsPlus with
  | some r => r
  | Option.none => s

/-- Matcher of `^remind\s+me\s+(to\s+)?`. -/
def remindMeM (_ : Option Char) (s : List Char) : Option (List Char) :=
  (litCI (strData "remind") s).bind fun r1 =>
    (wsPlus r1).bind fun r2 =>
      (litCI (strData "me") r2).bind fun r3 =>
        (wsPlus r3).map toOpt

/-- Matcher of the do-not-forget prefix `^don't\s+forget\s+(to\s+)?`. -/
def dontForgetM (_ : Option Char) (s : List Char) : Option (List Char) :=
  (litCI ['d', 'o', 'n', apos, 't'] s).bind fun r1 =>
    (wsPlus r1).bind fun r2 =>
      (litCI (strData "forget") r2).bind fun r3 =>
        (wsPlus r3).map toOpt

/-- Matcher of `^i\s+need\s+to\s+`. -/
def iNeedToM (_ : Option Char) (s : List Char) : Option (List Char) :=
  (litCI (strData "i") s).bind fun r1 =>
    (wsPlus r1).bind fun r2 =>
      (litCI (strData "need") r2).bind fun r3 =>
        (wsPlus r3).bind fun r4 =>
          (litCI (strData "to") r4).bind wsPlus

/-- Matcher of `^need\s+to\s+`. -/
def needToM (_ : Option Char) (s : List Char) : Option (List Char) :=
  (litCI (strData "need") s).bind fun r1 =>
    (wsPlus r1).bind fun r2 =>
      (litCI (strData "to") r2).bind wsPlus

/-- Greedy `s?` followed by `\b`: try consuming an `s` first; on boundary failure
backtrack to the bare form, exactly as the engine treats `days?\b`. -/
def optSBdry (lastc : Char) (rest : List Char) : Option (List Char) :=
  match rest with
  | c :: cs =>
    if lcChar c == 's' then
      if bdry (some 's') cs.head? then some cs
      else if bdry (some lastc) rest.head? then some rest
      else none
    else if bdry (some lastc) rest.head? then some rest
    else none
  | [] => if bdry (some lastc) none then some [] else none

/-- Matcher of `\bevery\s+\d+\s+<u>s?\b` (`u` a singular unit word). -/
def everyNumUnitM (u : List Char) (prev : Option Char) (s : List Char) : Option (List Char) :=
  if bdry prev s.head? then
    (litCI (strData "every") s).bind fun r1 =>
      (wsPlus r1).bind fun r2 =>
        (digitsPlus r2).bind fun nr =>
          (wsPlus nr.2).bind fun r3 =>
            (litCI u r3).bind (optSBdry (u.getLast?.getD 'x'))
  else none

/-- Matcher of `\bevery\s+other\s+(day|week|month|year)\b`. -/
def everyOtherM (prev : Option Char) (s : List Char) : Option (List Char) :=
  if bdry prev s.head? then
    (litCI (strData "every") s).bind fun r1 =>
      (wsPlus r1).bind fun r2 =>
        (litCI (strData "other") r2).bind fun r3 =>
          (wsPlus r3).bind fun r4 =>
            (altWordAfter [strData "day", strData "week", strData "month",
              strData "year"] r4).map fun ar => ar.2
  else none

/-- One repetition of `(\s*(,|and)\s*(<full day names>))` for the day-list strip rule. -/
def fullRepStep (s : List Char) : Option (List Char) :=
  let r1 := skipWsL s
  match (match litCI (strData ",") r1 with
         | some r => some r
         | Option.none => litCI (strData "and") r1) with
  | some r2 =>
    match altPlain fullDays7 (skipWsL r2) with
    | some (_, r3) => some r3
    | Option.none => none
  | Option.none => none

/-- Greedy repetitions of `fullRepStep` (fuel-bounded). -/
def fullReps : Nat → List Char → List Char
  | 0, s => s
  | fuel + 1, s =>
    match fullRepStep s with
    | some r => fullReps fuel r
    | Option.none => s

/-- Matcher of
`\bevery\s+(<full days>)(\s*(,|and)\s*(<full days>))*` — the day-list strip rule,
full names only and no trailing boundary. -/
def everyDayListM (prev : Option Char) (s : List Char) : Option (List Char) :=
  if bdry prev s.head? then
    (litCI (strData "every") s).bind fun r1 =>
      (wsPlus r1).bind fun r2 =>
        (altPlain fullDays7 r2).map fun ar => fullReps ar.2.length ar.2
  else none

/-- Matcher of `\bevery\s*<u>\b` (possibly empty whitespace). -/
def everyWsUnitM (u : List Char) (prev : Option Char) (s : List Char) : Option (List Char) :=
  if bdry prev s.head? then
    (litCI (strData "every") s).bind fun r1 =>
      match litCI u (skipWsL r1) with
      | some rest =>
        if bdry (u.getLast?.getD 'x') rest.head? then some rest else none
      | Option.none => none
  else none

/-- Matcher of a plain `\b<w>\b` strip rule. -/
def wordM (w : List Char) (prev : Option Char) (s : List Char) : Option (List Char) :=
  if bdry prev s.head? then
    match litCI w s with
    | some rest => if bdry w.getLast? rest.head? then some rest else none
    | Option.none => none
  else none

/-- Matcher of `\bbi-?<u>\b`. -/
def biM (u : List Char) (prev : Option Char) (s : List Char) : Option (List Char) :=
  if bdry prev s.head? then
    (litCI (strData "bi") s).bind fun r1 =>
      let r2 := match r1 with
                | '-' :: t => t
                | t => t
      match litCI u r2 with
      | some rest => if bdry (u.getLast?.getD 'x') rest.head? then some rest else none
      | Option.none => none
  else none

/-- Trailing part of the at-time strip rule after the empty minute group:
the literal `am` or `pm` followed by `\b`, or the empty option followed by `\b`
(in that backtracking order). -/
def apEmpty (prevc : Char) (rest : List Char) : Option (List Char) :=
  match litCI (strData "am") rest with
  | some r2 =>
    if bdry (some 'm') r2.head? then some r2 else apPmEmpty prevc rest
  | Option.none => apPmEmpty prevc rest
where
  apPmEmpty (prevc : Char) (rest : List Char) : Option (List Char) :=
    match litCI (strData "pm") rest with
    | some r2 =>
      if bdry (some 'm') r2.head? then some r2
      else if bdry (some prevc) rest.head? then some rest else none
    | Option.none => if bdry (some prevc) rest.head? then some rest else none

/-- Required `(am|pm)\b` tail for the bare-time strip rule. -/
def apReq (_ : Char) (rest : List Char) : Option (List Char) :=
  match litCI (strData "am") rest with
  | some r2 => if bdry (some 'm') r2.head? then some r2 else apReqPm rest
  | Option.none => apReqPm rest
where
  apReqPm (rest : List Char) : Option (List Char) :=
    match litCI (strData "pm") rest with
    | some r2 => if bdry (some 'm') r2.head? then some r2 else none
    | Option.none => none

/-- Greedy `\s*` with backtracking before a tail matcher: try the longest whitespace
run first and retreat one character at a time, as the engine does for `\s*(am|pm)?\b`. -/
def wsBack (tryHere : Char → List Char → Option (List Char)) :
    Char → List Char → Option (List Char)
  | prevc, [] => tryHere prevc []
  | prevc, c :: cs =>
    if isWs c then
      match wsBack tryHere c cs with
      | some r => some r
      | Option.none => tryHere prevc (c :: cs)
    else tryHere prevc (c :: cs)

/-- Matcher of `\bat\s+\d{1,2}(:\d{2})?\s*(am|pm)?\b` (the at-time strip rule).
The digit placeholder `'0'` stands for "the previous character was a digit"; `\b`
only consults wordness, which all digits share. -/
def atTimeM (prev : Option Char) (s : List Char) : Option (List Char) :=
  if bdry prev s.head? then
    (litCI (strData "at") s).bind fun r0 =>
      (wsPlus r0).bind fun r1 =>
        dig12 (fun _ rest =>
          match rest with
          | ':' :: d1 :: d2 :: r2 =>
            if isDig d1 && isDig d2 then
              match wsBack apEmpty '0' r2 with
              | some r => some r
              | Option.none => wsBack apEmpty '0' rest
            else wsBack apEmpty '0' rest
          | _ => wsBack apEmpty '0' rest) r1
  else none

/-- Matcher of `\b\d{1,2}\s*(am|pm)\b` (the bare-time strip rule). -/
def bareTimeM (prev : Option Char) (s : List Char) : Option (List Char) :=
  if bdry prev s.head? then
    dig12 (fun _ rest => wsBack apReq '0' rest) s
  else none

/-- Matcher of a two-word rule `\b<w1>\s+<w2>\b`. -/
def twoWordM (w1 w2 : List Char) (prev : Option Char) (s : List Char) : Option (List Char) :=
  if bdry prev s.head? then
    (litCI w1 s).bind fun r1 =>
      (wsPlus r1).bind fun r2 =>
        match litCI w2 r2 with
        | some rest =>
          if bdry (w2.getLast?.getD 'x') rest.head? then some rest else none
        | Option.none => none
  else none

/-- Ordered alternation `(days?|hours?|weeks?|months?)\b` of the in-N strip rule. -/
def altUnitS : List (List Char) → List Char → Option (List Char)
  | [], _ => none
  | u :: us, s =>
    match (litCI u s).bind (optSBdry (u.getLast?.getD 'x')) with
    | some r => some r
    | Option.none => altUnitS us s

/-- Matcher of `\bin\s+\d+\s+(days?|hours?|weeks?|months?)\b`. -/
def inNumUnitM (prev : Option Char) (s : List Char) : Option (List Char) :=
  if bdry prev s.head? then
    (litCI (strData "in") s).bind fun r1 =>
      (wsPlus r1).bind fun r2 =>
        (digitsPlus r2).bind fun nr =>
          (wsPlus nr.2).bind
            (altUnitS [strData "day", strData "hour", strData "week", strData "month"])
  else none

/-- Matcher of `\bon\s+(<full day names>)\b`. -/
def onDayM (prev : Option Char) (s : List Char) : Option (List Char) :=
  if bdry prev s.head? then
    (litCI (strData "on") s).bind fun r1 =>
      (wsPlus r1).bind fun r2 =>
        (altWordAfter fullDays7 r2).map fun ar => ar.2
  else none

/-- Matcher of the trailing connector rule `\s+to\s+$`. -/
def trailToM (_ : Option Char) (s : List Char) : Option (List Char) :=
  (wsPlus s).bind fun r1 =>
    (litCI (strData "to") r1).bind fun r2 =>
      (wsPlus r2).bind fun r3 =>
        match r3 with
        | [] => some []
        | _ => none

/-- Matcher of the leading connector rule `^\s*to\s+`. -/
def leadToM (_ : Option Char) (s : List Char) : Option (List Char) :=
  (litCI (strData "to") (skipWsL s)).bind wsPlus

/-- The ordered strip-rule pipeline of the title extractor, one entry per `.replace`
of the source (the final whitespace collapse and trim are applied separately). -/
def stripRules : List StripRule :=
  [⟨true, remindMeM⟩,
   ⟨true, dontForgetM⟩,
   ⟨true, iNeedToM⟩,
   ⟨true, needToM⟩,
   ⟨false, everyNumUnitM (strData "day")⟩,
   ⟨false, everyNumUnitM (strData "week")⟩,
   ⟨false, everyNumUnitM (strData "month")⟩,
   ⟨false, everyNumUnitM (strData "year")⟩,
   ⟨false, everyOtherM⟩,
   ⟨false, everyDayListM⟩,
   ⟨false, everyWsUnitM (strData "day")⟩,
   ⟨false, everyWsUnitM (strData "week")⟩,
   ⟨false, everyWsUnitM (strData "month")⟩,
   ⟨false, everyWsUnitM (strData "year")⟩,
   ⟨false, wordM (strData "daily")⟩,
   ⟨false, wordM (strData "weekly")⟩,
   ⟨false, wordM (strData "monthly")⟩,
   ⟨false, wordM (strData "yearly")⟩,
   ⟨false, wordM (strData "annually")⟩,
   ⟨false, biM (strData "weekly")⟩,
   ⟨false, biM (strData "monthly")⟩,
   ⟨false, atTimeM⟩,
   ⟨false, bareTimeM⟩,
   ⟨false, wordM (strData "today")⟩,
   ⟨false, wordM (strData "tomorrow")⟩,
   ⟨false, wordM (strData "tonight")⟩,
   ⟨false, twoWordM (strData "next") (strData "week")⟩,
   ⟨false, twoWordM (strData "this") (strData "weekend")⟩,
   ⟨false, inNumUnitM⟩,
   ⟨false, onDayM⟩,
   ⟨false, wordM (strData "urgent")⟩,
   ⟨false, wordM (strData "asap")⟩,
   ⟨false, wordM (strData "immediately")⟩,
   ⟨false, wordM (strData "important")⟩,
   ⟨false, twoWordM (strData "high") (strData "priority")⟩,
   ⟨false, twoWordM (strData "low") (strData "priority")⟩,
   ⟨false, twoWordM (strData "no") (strData "rush")⟩,
   ⟨false, trailToM⟩,
   ⟨true, leadToM⟩]

/-- Global replace-with-empty over one string: scan left to right, delete each
non-overlapping match and continue after it, keeping the original left context for
`\b` (JS finds all matches on the original string).  `fuel` bounds the recursion;
`stripAll` supplies the string length, enough because every step consumes a character. -/
def stripGo (m : Option Char → List Char → Option (List Char)) :
    Nat → Option Char → List Char → List Char
  | 0, _, s => s
  | _ + 1, _, [] => []
  | fuel + 1, prev, c :: cs =>
    match m prev (c :: cs) with
    | some rest =>
      if rest.length < (c :: cs).length then
        stripGo m fuel ((c :: cs).take ((c :: cs).length - rest.length)).getLast? rest
      else c :: stripGo m fuel (some c) cs
    | Option.none => c :: stripGo m fuel (some c) cs

/-- Apply one global strip rule to a whole string. -/
def stripAll (m : Option Char → List Char → Option (List Char)) (s : List Char) : List Char :=
  stripGo m s.length none s

/-- Apply one rule: anchored rules strip a matched prefix once, global rules strip
every match. -/
def applyRule (r : StripRule) (s : List Char) : List Char :=
  if r.anchored then
    match r.m none s with
    | some rest => rest
    | Option.none => s
  else stripAll r.m s

/-- Apply the rules of the pipeline in order. -/
def applyRules : List StripRule → List Char → List Char
  | [], s => s
  | r :: rs, s => applyRules rs (applyRule r s)

/-- Does a rule match anywhere in the string (for anchored rules: at the start)? -/
def occursRule (r : StripRule) (s : List Char) : Bool :=
  if r.anchored then (r.m none s).isSome
  else (scanFrom r.m none s).isSome

/-- The whitespace collapse `replace(/\s+/g, " ")`: every maximal whitespace run
becomes a single space. -/
def collapseWs : List Char → List Char
  | [] => []
  | [c] => if isWs c then [' '] else [c]
  | c :: c2 :: cs =>
    if isWs c then
      if isWs c2 then collapseWs (c2 :: cs) else ' ' :: collapseWs (c2 :: cs)
    else c :: collapseWs (c2 :: cs)

/-- The `trim()` call: drop whitespace from both ends. -/
def trimL (s : List Char) : List Char :=
  ((s.dropWhile isWs).reverse.dropWhile isWs).reverse

/-- The whole title-strip pipeline on the raw (original-case) input characters. -/
def titleStrip (cs : List Char) : List Char :=
  trimL (collapseWs (applyRules stripRules cs))

/-- Capitalize the first character, `charAt(0).toUpperCase() + slice(1)`. -/
def ucFirst : List Char → List Char
  | [] => []
  | c :: cs => ucChar c :: cs

/-- The cleaned title: the stripped input capitalized, or the raw input verbatim when
stripping left nothing (`title || input`). -/
def titleOf (input : String) : String :=
  if titleStrip (strData input) = [] then input
  else String.mk (ucFirst (titleStrip (strData input)))

/-- The title confidence increment: +25 exactly when stripping left a non-empty
title. -/
def titleConfOf (input : String) : Nat :=
  if titleStrip (strData input) = [] then 0 else 25

/-- The total confidence: the sum of the per-phase increments, capped at 100
(`Math.min(confidence, 100)`). -/
def confOf (tm : Option String × Nat) (dr : DateR) (rr : RecR) (category : Category)
    (priority : Priority) (input : String) : Nat :=
  min (tm.2 + dr.conf + rr.conf +
    (if category = Category.other then 0 else 15) +
    (if priority = Priority.medium then 0 else 10) +
    titleConfOf input) 100

/-- The full parser `parseNaturalLanguage`, assembled from the phases in source order.
`today` is the local calendar day of the wall clock (days since 1970-01-01) and
`nowHour`/`nowMin` its time fields; the JS function reads them from `new Date()`. -/
def parseNaturalLanguage (today nowHour nowMin : Nat) (input : String) : ParsedReminder :=
  let cs := strData input
  let tm := timePhase cs
  let dr := datePhase cs today nowHour nowMin tm.1
  let rr := recurrencePhase cs
  let category := detectCategory input
  let priority := detectPriority input dr.date
  { title := titleOf input
    dueDate := dr.date
    dueTime := dr.time
    priority := priority
    category := category
    recurrence := rr.kind
    recurrenceInterval := rr.int
    recurrenceUnit := rr.unit
    recurrenceDays := rr.days
    confidence := confOf tm dr rr category priority input }

/-- Projection of `parseNaturalLanguage`: the recurrence kind comes from the
recurrence phase. -/
theorem parse_recurrence (t h m : Nat) (s : String) :
    (parseNaturalLanguage t h m s).recurrence = (recurrencePhase (strData s)).kind :=
  rfl

/-- Projection of `parseNaturalLanguage`: the interval comes from the recurrence phase. -/
theorem parse_interval (t h m : Nat) (s : String) :
    (parseNaturalLanguage t h m s).recurrenceInterval = (recurrencePhase (strData s)).int :=
  rfl

/-- Projection of `parseNaturalLanguage`: the unit comes from the recurrence phase. -/
theorem parse_unit (t h m : Nat) (s : String) :
    (parseNaturalLanguage t h m s).recurrenceUnit = (recurrencePhase (strData s)).unit :=
  rfl

/-- Projection of `parseNaturalLanguage`: the day list comes from the recurrence phase. -/
theorem parse_days (t h m : Nat) (s : String) :
    (parseNaturalLanguage t h m s).recurrenceDays = (recurrencePhase (strData s)).days :=
  rfl

/-- Projection of `parseNaturalLanguage`: the due date comes from the date phase. -/
theorem parse_dueDate (t h m : Nat) (s : String) :
    (parseNaturalLanguage t h m s).dueDate =
      (datePhase (strData s) t h m (timePhase (strData s)).1).date :=
  rfl

/-- Projection of `parseNaturalLanguage`: the due time comes from the date phase. -/
theorem parse_dueTime (t h m : Nat) (s : String) :
    (parseNaturalLanguage t h m s).dueTime =
      (datePhase (strData s) t h m (timePhase (strData s)).1).time :=
  rfl

/-- Projection of `parseNaturalLanguage`: the category. -/
theorem parse_category (t h m : Nat) (s : String) :
    (parseNaturalLanguage t h m s).category = detectCategory s :=
  rfl

/-- Projection of `parseNaturalLanguage`: the priority. -/
theorem parse_priority (t h m : Nat) (s : String) :
    (parseNaturalLanguage t h m s).priority =
      detectPriority s (datePhase (strData s) t h m (timePhase (strData s)).1).date :=
  rfl

/-- A successful scan exhibits a successful attempt at some position. -/
theorem scanFrom_eq_some {f : Option Char → List Char → Option α} :
    ∀ {prev : Option Char} {s : List Char} {x : α},
      scanFrom f prev s = some x → ∃ p t, f p t = some x := by
  intro prev s
  induction s generalizing prev with
  | nil => exact fun h => ⟨prev, [], h⟩
  | cons c cs ih =>
    intro x h
    unfold scanFrom at h
    cases hf : f prev (c :: cs) with
    | some r => rw [hf] at h; exact ⟨prev, c :: cs, hf.trans h⟩
    | none => rw [hf] at h; exact ih h

/-- A failed scan means every attempt failed; in particular the attempt at the head
position failed and the scan of the tail failed. -/
theorem scanFrom_cons_eq_none {f : Option Char → List Char → Option α}
    {prev : Option Char} {c : Char} {cs : List Char}
    (h : scanFrom f prev (c :: cs) = none) :
    f prev (c :: cs) = none ∧ scanFrom f (some c) cs = none := by
  unfold scanFrom at h
  cases hf : f prev (c :: cs) with
  | some r => rw [hf] at h; exact absurd h (by simp)
  | none => rw [hf] at h; exact ⟨rfl, h⟩

/-- The alternative returned by a plain alternation is one of its alternatives. -/
theorem altPlain_mem {alts : List (List Char)} :
    ∀ {s : List Char} {a r : List Char}, altPlain alts s = some (a, r) → a ∈ alts := by
  induction alts with
  | nil => intro s a r h; simp [altPlain] at h
  | cons x xs ih =>
    intro s a r h
    unfold altPlain at h
    split at h
    · injection h with h'
      injection h' with h1 h2
      subst h1
      exact List.mem_cons_self x xs
    · exact List.mem_cons_of_mem _ (ih h)

/-- The alternative returned by a boundary-checked alternation is one of its
alternatives. -/
theorem altWordAfter_mem {alts : List (List Char)} :
    ∀ {s : List Char} {a r : List Char}, altWordAfter alts s = some (a, r) → a ∈ alts := by
  induction alts with
  | nil => intro s a r h; simp [altWordAfter] at h
  | cons x xs ih =>
    intro s a r h
    unfold altWordAfter at h
    split at h
    · split at h
      · injection h with h'
        injection h' with h1 h2
        subst h1
        exact List.mem_cons_self x xs
      · exact List.mem_cons_of_mem _ (ih h)
    · exact List.mem_cons_of_mem _ (ih h)

/-- C9: priority is determined only by explicit keywords, never by due-date proximity:
for every text and any two dueDate arguments detectPriority gives the same value, and
the value corresponds exactly to the keyword groups checked in order urgent, high, low,
with medium when no explicit keyword matches. -/
theorem C9_priority_explicit_only (text d1 d2 : String) :
    detectPriority text d1 = detectPriority text d2 ∧
    (detectPriority text d1 = Priority.urgent ↔ anyWord urgentKw (strData text) = true) ∧
    (detectPriority text d1 = Priority.high ↔
      (anyWord urgentKw (strData text) = false ∧ anyWord highKw (strData text) = true)) ∧
    (detectPriority text d1 = Priority.low ↔
      (anyWord urgentKw (strData text) = false ∧ anyWord highKw (strData text) = false ∧
       anyWord lowKw (strData text) = true)) ∧
    (detectPriority text d1 = Priority.medium ↔
      (anyWord urgentKw (strData text) = false ∧ anyWord highKw (strData text) = false ∧
       anyWord lowKw (strData text) = false)) := by
  cases hu : anyWord urgentKw (strData text) <;>
    cases hh : anyWord highKw (strData text) <;>
      cases hl : anyWord lowKw (strData text) <;>
        simp [detectPriority, hu, hh, hl]

/-- Definition following the claim wording (not the source): a string is a valid
`HH:MM` 24-hour time when it is five characters `hh:mm` with hour at most 23 and
minute at most 59. -/
def specValidHHMM (t : String) : Bool :=
  match strData t with
  | [h1, h2, ':', m1, m2] =>
    isDig h1 && isDig h2 && isDig m1 && isDig m2 &&
    decide (10 * digVal h1 + digVal h2 ≤ 23) &&
    decide (10 * digVal m1 + digVal m2 ≤ 59)
  | _ => false

/-- C4: the claim that every returned dueTime is a valid `HH:MM` time of day fails on
the code: for the input `meet at 23:45pm` the 12-to-24-hour conversion adds 12 to the
already-24-hour hour 23 and the parser returns the non-time `35:45`. -/
theorem C4_dueTime_invalid_at_failing_input :
    (parseNaturalLanguage 20368 9 0 "meet at 23:45pm").dueTime = some "35:45" ∧
    specValidHHMM "35:45" = false := by
  constructor
  · rfl
  · rfl

/-- C8 counterexample: on the input `eod` (which matches no higher-precedence named
moment) the time extractor sets 17:00 but adds only 10 confidence, not the claimed 15. -/
theorem C8_eod_counterexample :
    (timePhase (strData "eod")).1 = some "17:00" ∧
    (timePhase (strData "eod")).2 = 10 ∧
    (timePhase (strData "eod")).2 ≠ 15 := by
  refine ⟨rfl, rfl, ?_⟩
  decide

/-- C8 amended: for every input containing `end of day` or `eod` as a whole phrase and
matching no higher-precedence named moment, the time extractor sets dueTime to 17:00
with a confidence increment of 10 — the same reduced increment as the
morning/evening/afternoon/night group, not 15. -/
theorem C8_eod_amended (s : String)
    (he : (containsWord (strData "end of day") (strData s) ||
           containsWord (strData "eod") (strData s)) = true)
    (h1 : containsWord (strData "midnight") (strData s) = false)
    (h2 : (containsWord (strData "noon") (strData s) ||
           containsWord (strData "midday") (strData s)) = false)
    (h3 : (morningTest (strData s) && !hasSub (strData "this morning") (strData s)) = false)
    (h4 : containsWord (strData "evening") (strData s) = false)
    (h5 : containsWord (strData "afternoon") (strData s) = false)
    (h6 : (containsWord (strData "night") (strData s) &&
           !hasSub (strData "tonight") (strData s)) = false) :
    timePhase (strData s) = (some "17:00", 10) := by
  unfold timePhase namedTime
  simp only [Bool.or_eq_true] at he h2
  rw [h1]
  simp only [Bool.false_eq_true, if_false]
  rw [if_neg (by rw [Bool.or_eq_true]; push_neg; simp_all)]
  rw [if_neg (by simp [h3])]
  rw [h4]
  simp only [Bool.false_eq_true, if_false]
  rw [h5]
  simp only [Bool.false_eq_true, if_false]
  rw [if_neg (by simp [h6])]
  rw [if_pos (by rw [Bool.or_eq_true]; tauto)]

/-- C8 witness input: `eod` itself. -/
theorem C8_witness : timePhase (strData "eod") = (some "17:00", 10) :=
  C8_eod_amended "eod" (by decide) (by decide) (by decide) (by decide) (by decide)
    (by decide) (by decide)

/-- The interval of the explicit rule is always the captured number. -/
theorem explicitRule_int (n : Nat) (u : List Char) : (explicitRule n u).int = some n := by
  unfold explicitRule
  repeat' split
  all_goals rfl

/-- The day list of the explicit rule is never set. -/
theorem explicitRule_days (n : Nat) (u : List Char) : (explicitRule n u).days = none := by
  unfold explicitRule
  repeat' split
  all_goals rfl

/-- The captured unit of `everyNUnit` is one of the eight alternatives. -/
theorem everyNUnit_mem {cs : List Char} {n : Nat} {u : List Char}
    (h : everyNUnit cs = some (n, u)) : u ∈ unitAlts8 := by
  obtain ⟨p, t, hpt⟩ := scanFrom_eq_some h
  unfold everyNUnitAt at hpt
  simp only [Option.bind_eq_some, Option.map_eq_some'] at hpt
  obtain ⟨r1, _, r2, _, nr, _, r3, _, ⟨a, b⟩, hur, heq⟩ := hpt
  have ha : a = u := by
    have := congrArg Prod.snd heq
    simpa using this
  exact ha ▸ altPlain_mem hur

/-- For units of the actual alternation the explicit rule always records a unit and a
recurrence kind other than `none` and other than `weekly`-via-days paths: precisely,
unit is present and kind is the named form for interval 1, `custom` otherwise. -/
theorem explicitRule_unit_isSome (n : Nat) (u : List Char) (hu : u ∈ unitAlts8) :
    (explicitRule n u).unit.isSome = true ∧ (explicitRule n u).kind ≠ Recurrence.none := by
  fin_cases hu <;>
    refine ⟨rfl, ?_⟩ <;>
      · show (if n = 1 then _ else Recurrence.custom) ≠ Recurrence.none
        split <;> simp

/-- C2: explicit recurrence phrasing always outranks semantic inference.  Whenever the
explicit `every N unit` pattern matches, the recurrence fields of the parse result are
exactly those of the explicit rule applied to the captures — no semantic rule can
override them — and the day-list field stays empty. -/
theorem C2_explicit_over_semantic (today nowHour nowMin : Nat) (s : String) (n : Nat)
    (u : List Char) (h : everyNUnit (strData s) = some (n, u)) :
    (parseNaturalLanguage today nowHour nowMin s).recurrence = (explicitRule n u).kind ∧
    (parseNaturalLanguage today nowHour nowMin s).recurrenceInterval = some n ∧
    (parseNaturalLanguage today nowHour nowMin s).recurrenceUnit = (explicitRule n u).unit ∧
    (parseNaturalLanguage today nowHour nowMin s).recurrenceDays = none := by
  have hrec : recurrencePhase (strData s) = explicitRule n u := by
    unfold recurrencePhase
    rw [h]
  refine ⟨?_, ?_, ?_, ?_⟩
  · rw [parse_recurrence, hrec]
  · rw [parse_interval, hrec, explicitRule_int]
  · rw [parse_unit, hrec]
  · rw [parse_days, hrec, explicitRule_days]

/-- C2 witness: `take vitamins every 3 days` parses to custom recurrence with interval
3 and unit days; the semantic vitamins-to-daily rule does not apply. -/
theorem C2_witness :
    (parseNaturalLanguage 20368 9 0 "take vitamins every 3 days").recurrence =
      Recurrence.custom ∧
    (parseNaturalLanguage 20368 9 0 "take vitamins every 3 days").recurrenceInterval =
      some 3 ∧
    (parseNaturalLanguage 20368 9 0 "take vitamins every 3 days").recurrenceUnit =
      some RUnit.days := by
  have h := C2_explicit_over_semantic 20368 9 0 "take vitamins every 3 days" 3
    (strData "day") (by decide)
  exact ⟨h.1.trans (by decide), h.2.1, h.2.2.1.trans (by decide)⟩

/-- Field invariant claimed for recurrence results: a custom kind carries interval and
unit, an empty kind carries neither. -/
def RecOK (r : RecR) : Prop :=
  (r.kind = Recurrence.custom → r.int.isSome = true ∧ r.unit.isSome = true) ∧
  (r.kind = Recurrence.none → r.int = none ∧ r.unit = none)

instance (r : RecR) : Decidable (RecOK r) := by
  unfold RecOK
  infer_instance

/-- Lift a predicate through one branch of an `if`. -/
theorem pred_ite (P : RecR → Prop) {c : Prop} [Decidable c] {a b : RecR}
    (ha : P a) (hb : P b) : P (if c then a else b) := by
  split
  · exact ha
  · exact hb

/-- A result whose kind is `weekly` satisfies the custom/none field invariant
vacuously. -/
theorem recOK_of_weekly {r : RecR} (h : r.kind = Recurrence.weekly) : RecOK r := by
  constructor
  · intro hk
    rw [h] at hk
    exact Recurrence.noConfusion hk
  · intro hk
    rw [h] at hk
    exact Recurrence.noConfusion hk

/-- Invariant of the semantic-inference chain. -/
theorem semanticRec_inv (cs : List Char) : RecOK (semanticRec cs) := by
  unfold semanticRec
  refine pred_ite RecOK (by decide) ?_
  refine pred_ite RecOK (by decide) ?_
  refine pred_ite RecOK (by decide) ?_
  refine pred_ite RecOK (by decide) ?_
  refine pred_ite RecOK (by decide) ?_
  refine pred_ite RecOK (by decide) ?_
  refine pred_ite RecOK (by decide) ?_
  refine pred_ite RecOK (by decide) ?_
  refine pred_ite RecOK (by decide) ?_
  refine pred_ite RecOK (by decide) ?_
  refine pred_ite RecOK (by decide) ?_
  refine pred_ite RecOK (by decide) ?_
  decide

/-- The semantic chain never sets the day list. -/
theorem semanticRec_days (cs : List Char) : (semanticRec cs).days = none := by
  unfold semanticRec
  refine pred_ite (fun r => r.days = none) rfl ?_
  refine pred_ite (fun r => r.days = none) rfl ?_
  refine pred_ite (fun r => r.days = none) rfl ?_
  refine pred_ite (fun r => r.days = none) rfl ?_
  refine pred_ite (fun r => r.days = none) rfl ?_
  refine pred_ite (fun r => r.days = none) rfl ?_
  refine pred_ite (fun r => r.days = none) rfl ?_
  refine pred_ite (fun r => r.days = none) rfl ?_
  refine pred_ite (fun r => r.days = none) rfl ?_
  refine pred_ite (fun r => r.days = none) rfl ?_
  refine pred_ite (fun r => r.days = none) rfl ?_
  refine pred_ite (fun r => r.days = none) rfl ?_
  rfl

/-- The recurrence inferencer on inputs without an explicit `every N unit` match. -/
theorem recPhase_none (cs : List Char) (h : everyNUnit cs = none) :
    recurrencePhase cs = recNoExplicit cs := by
  unfold recurrencePhase
  rw [h]

/-- The recurrence inferencer on inputs with an explicit `every N unit` match. -/
theorem recPhase_some (cs : List Char) (n : Nat) (u : List Char)
    (h : everyNUnit cs = some (n, u)) : recurrencePhase cs = explicitRule n u := by
  unfold recurrencePhase
  rw [h]

/-- Invariant of the non-explicit chain. -/
theorem recNoExplicit_inv (cs : List Char) : RecOK (recNoExplicit cs) := by
  unfold recNoExplicit
  refine pred_ite RecOK (recOK_of_weekly rfl) ?_
  refine pred_ite RecOK (recOK_of_weekly rfl) ?_
  refine pred_ite RecOK (by decide) ?_
  refine pred_ite RecOK (by decide) ?_
  refine pred_ite RecOK (by decide) ?_
  refine pred_ite RecOK (by decide) ?_
  refine pred_ite RecOK (by decide) ?_
  refine pred_ite RecOK (by decide) ?_
  exact semanticRec_inv cs

/-- Invariant of the whole recurrence inferencer. -/
theorem recPhase_inv (cs : List Char) : RecOK (recurrencePhase cs) := by
  cases h : everyNUnit cs with
  | some nu =>
    obtain ⟨n, u⟩ := nu
    rw [recPhase_some cs n u h]
    have h2 := explicitRule_unit_isSome n u (everyNUnit_mem h)
    constructor
    · intro _
      refine ⟨?_, h2.1⟩
      rw [explicitRule_int]
      rfl
    · intro hk
      exact absurd hk h2.2
  | none =>
    rw [recPhase_none cs h]
    exact recNoExplicit_inv cs

/-- C6: for every input, a `custom` recurrence comes with both an interval and a unit,
and a `none` recurrence with neither. -/
theorem C6_recurrence_fields (today nowHour nowMin : Nat) (s : String) :
    ((parseNaturalLanguage today nowHour nowMin s).recurrence = Recurrence.custom →
      (parseNaturalLanguage today nowHour nowMin s).recurrenceInterval.isSome = true ∧
      (parseNaturalLanguage today nowHour nowMin s).recurrenceUnit.isSome = true) ∧
    ((parseNaturalLanguage today nowHour nowMin s).recurrence = Recurrence.none →
      (parseNaturalLanguage today nowHour nowMin s).recurrenceInterval = none ∧
      (parseNaturalLanguage today nowHour nowMin s).recurrenceUnit = none) := by
  rw [parse_recurrence, parse_interval, parse_unit]
  exact recPhase_inv (strData s)

/-- C6 witness: a custom-recurrence input carries interval and unit, a token-free
input carries neither. -/
theorem C6_witness :
    ((parseNaturalLanguage 20368 9 0 "take vitamins every 3 days").recurrenceInterval.isSome
        = true ∧
      (parseNaturalLanguage 20368 9 0 "take vitamins every 3 days").recurrenceUnit.isSome
        = true) ∧
    ((parseNaturalLanguage 20368 9 0 "xyz").recurrenceInterval = none ∧
      (parseNaturalLanguage 20368 9 0 "xyz").recurrenceUnit = none) :=
  ⟨(C6_recurrence_fields 20368 9 0 "take vitamins every 3 days").1 (by decide),
   (C6_recurrence_fields 20368 9 0 "xyz").2 (by decide)⟩

/-- Every weekday number produced by the lookup table is at most 6. -/
theorem dayNameToNum_le {w : List Char} {d : Nat} (h : dayNameToNum w = some d) : d ≤ 6 := by
  unfold dayNameToNum at h
  split_ifs at h <;> simp_all <;> omega

/-- The scan of `extractDays` preserves deduplication and the 0–6 bound of the
accumulator. -/
theorem extractScan_inv :
    ∀ (fuel : Nat) (prev : Option Char) (t : List Char) (acc : List Nat),
      acc.Nodup → (∀ d ∈ acc, d ≤ 6) →
      (extractScan fuel prev t acc).Nodup ∧ ∀ d ∈ extractScan fuel prev t acc, d ≤ 6 := by
  intro fuel
  induction fuel with
  | zero =>
    intro prev t acc h1 h2
    exact ⟨h1, h2⟩
  | succ fuel ih =>
    intro prev t acc h1 h2
    cases t with
    | nil => exact ⟨h1, h2⟩
    | cons c cs =>
      unfold extractScan
      split
      · split
        · split
          · split
            · exact ih _ _ _ h1 h2
            · rename_i a rest hdn dn nmem
              refine ih _ _ _ ?_ ?_
              · simp [List.nodup_append, h1, nmem]
              · intro d hd
                rcases List.mem_append.1 hd with hd | hd
                · exact h2 d hd
                · rw [List.mem_singleton.1 hd]
                  exact dayNameToNum_le (by assumption)
          · exact ih _ _ _ h1 h2
        · exact ih _ _ _ h1 h2
      · exact ih _ _ _ h1 h2

/-- The day list built by `extractDays` is strictly sorted, duplicate-free and within
0–6. -/
theorem extractDays_facts (t : List Char) :
    (extractDays t).Sorted (· < ·) ∧ (extractDays t).Nodup ∧ ∀ d ∈ extractDays t, d ≤ 6 := by
  have hscan := extractScan_inv t.length none t [] List.nodup_nil (by simp)
  have hperm := List.perm_insertionSort (· ≤ ·) (extractScanAll t)
  have hnd : (extractDays t).Nodup := by
    unfold extractDays
    exact hperm.nodup_iff.2 hscan.1
  refine ⟨?_, hnd, ?_⟩
  · exact List.Sorted.lt_of_le (List.sorted_insertionSort (· ≤ ·) (extractScanAll t)) hnd
  · intro d hd
    exact hscan.2 d (hperm.mem_iff.1 hd)

/-- Field invariant claimed for `recurrenceDays`: when present it is strictly
ascending, duplicate-free, within 0–6, and the recurrence kind is `weekly`. -/
def DaysOK (r : RecR) : Prop :=
  ∀ ds, r.days = some ds →
    ds.Sorted (· < ·) ∧ ds.Nodup ∧ (∀ d ∈ ds, d ≤ 6) ∧ r.kind = Recurrence.weekly

/-- A result without a day list satisfies the day-list invariant vacuously. -/
theorem daysOK_of_none {r : RecR} (h : r.days = none) : DaysOK r := by
  intro ds hds
  rw [h] at hds
  exact Option.noConfusion hds

/-- Day-list invariant of the non-explicit chain. -/
theorem recNoExplicit_daysOK (cs : List Char) : DaysOK (recNoExplicit cs) := by
  unfold recNoExplicit
  refine pred_ite DaysOK ?_ ?_
  · intro ds hds
    simp only [Option.map_eq_some'] at hds
    obtain ⟨t, _, rfl⟩ := hds
    obtain ⟨hs, hn, hb⟩ := extractDays_facts t
    exact ⟨hs, hn, hb, rfl⟩
  refine pred_ite DaysOK ?_ ?_
  · intro ds hds
    simp only [Option.bind_eq_some, Option.map_eq_some'] at hds
    obtain ⟨nm, _, d, hd, rfl⟩ := hds
    refine ⟨List.sorted_singleton d, List.nodup_singleton d, ?_, rfl⟩
    intro x hx
    rw [List.mem_singleton.1 hx]
    exact dayNameToNum_le hd
  refine pred_ite DaysOK (daysOK_of_none rfl) ?_
  refine pred_ite DaysOK (daysOK_of_none rfl) ?_
  refine pred_ite DaysOK (daysOK_of_none rfl) ?_
  refine pred_ite DaysOK (daysOK_of_none rfl) ?_
  refine pred_ite DaysOK (daysOK_of_none rfl) ?_
  refine pred_ite DaysOK (daysOK_of_none rfl) ?_
  exact daysOK_of_none (semanticRec_days cs)

/-- Day-list invariant of the whole recurrence inferencer. -/
theorem recPhase_daysOK (cs : List Char) : DaysOK (recurrencePhase cs) := by
  cases h : everyNUnit cs with
  | some nu =>
    obtain ⟨n, u⟩ := nu
    rw [recPhase_some cs n u h]
    exact daysOK_of_none (explicitRule_days n u)
  | none =>
    rw [recPhase_none cs h]
    exact recNoExplicit_daysOK cs

/-- C7: whenever the parse result contains `recurrenceDays` the list is strictly
ascending, has no duplicates, all entries lie in 0–6, and the recurrence is weekly. -/
theorem C7_recurrenceDays_invariant (today nowHour nowMin : Nat) (s : String)
    (ds : List Nat)
    (h : (parseNaturalLanguage today nowHour nowMin s).recurrenceDays = some ds) :
    ds.Sorted (· < ·) ∧ ds.Nodup ∧ (∀ d ∈ ds, d ≤ 6) ∧
    (parseNaturalLanguage today nowHour nowMin s).recurrence = Recurrence.weekly := by
  rw [parse_days] at h
  rw [parse_recurrence]
  exact recPhase_daysOK (strData s) ds h

/-- C7 witness: `gym every monday and wednesday` produces the day list [1, 3]. -/
theorem C7_witness :
    (parseNaturalLanguage 20368 9 0 "gym every monday and wednesday").recurrenceDays =
      some [1, 3] ∧
    List.Sorted (· < ·) [1, 3] ∧ List.Nodup [1, 3] ∧ (∀ d ∈ [1, 3], d ≤ 6) ∧
    (parseNaturalLanguage 20368 9 0 "gym every monday and wednesday").recurrence =
      Recurrence.weekly := by
  have h := C7_recurrenceDays_invariant 20368 9 0 "gym every monday and wednesday"
    [1, 3] (by decide)
  exact ⟨by decide, h.1, h.2.1, h.2.2.1, h.2.2.2⟩

/-- None of the eight early date branches (`today` … `this evening`) matches. -/
def noEarlyDate (cs : List Char) : Prop :=
  hasSub (strData "today") cs = false ∧ hasSub (strData "tonight") cs = false ∧
  hasSub (strData "tomorrow") cs = false ∧ hasSub (strData "next week") cs = false ∧
  hasSub (strData "this weekend") cs = false ∧ hasSub (strData "this morning") cs = false ∧
  hasSub (strData "this afternoon") cs = false ∧ hasSub (strData "this evening") cs = false

instance (cs : List Char) : Decidable (noEarlyDate cs) := by
  unfold noEarlyDate
  infer_instance

/-- Without an early date branch, the date signal is the final `else` record. -/
theorem dateSignal_rest {cs : List Char} (h : noEarlyDate cs) :
    dateSignal cs =
      DateSig.rest (inMatch cs) (firstDay cs) (containsWord (strData "next") cs) := by
  obtain ⟨h1, h2, h3, h4, h5, h6, h7, h8⟩ := h
  unfold dateSignal
  rw [h1, h2, h3, h4, h5, h6, h7, h8]
  rfl

/-- With an `in N days` match, the `in N …` chain selects the days signal. -/
theorem inMatch_days {cs : List Char} {n : Nat} (h : inDaysM cs = some n) :
    inMatch cs = some (InSig.inDays n) := by
  unfold inMatch
  rw [h]

/-- C3 counterexample: on `call bob in 2 days on friday` (today = Tuesday 2025-10-07
as day 20368) the `in N days` pattern matches with N = 2, yet the returned date is the
upcoming Friday 2025-10-10, not today+2 = 2025-10-09: the weekday step is not an
`else` of the `in N …` step and overwrites its result. -/
theorem C3_counterexample :
    inDaysM (strData "call bob in 2 days on friday") = some 2 ∧
    (parseNaturalLanguage 20368 9 0 "call bob in 2 days on friday").dueDate =
      "2025-10-10" ∧
    (parseNaturalLanguage 20368 9 0 "call bob in 2 days on friday").dueDate ≠
      formatLocalDate (20368 + 2) := by
  refine ⟨rfl, rfl, ?_⟩
  decide

/-- C3 amended: inside the final `else` of the date extractor, the `in N days` step
sets dueDate to today+N, but the weekday-name step is not mutually exclusive with it:
it runs afterwards and overwrites the date whenever a weekday name occurs; dueDate is
today+N exactly when no weekday name matches. -/
theorem C3_in_days_weekday (today nowHour nowMin : Nat) (s : String) (n : Nat)
    (hne : noEarlyDate (strData s)) (hin : inDaysM (strData s) = some n) :
    (firstDay (strData s) = none →
      (parseNaturalLanguage today nowHour nowMin s).dueDate =
        formatLocalDate (today + n)) ∧
    ∀ i, firstDay (strData s) = some i →
      (parseNaturalLanguage today nowHour nowMin s).dueDate =
        formatLocalDate (today +
          weekdayDiff i (dayOfWeek today) (containsWord (strData "next") (strData s))) := by
  rw [parse_dueDate]
  unfold datePhase
  rw [dateSignal_rest hne, inMatch_days hin]
  constructor
  · intro hf
    rw [hf]
    rfl
  · intro i hf
    rw [hf]
    rfl

/-- C3 witness: the two concrete instances of the amended statement. -/
theorem C3_witness :
    (parseNaturalLanguage 20368 9 0 "call bob in 2 days").dueDate = "2025-10-09" ∧
    (parseNaturalLanguage 20368 9 0 "call bob in 2 days on friday").dueDate =
      "2025-10-10" := by
  have h1 := (C3_in_days_weekday 20368 9 0 "call bob in 2 days" 2 (by decide)
    (by decide)).1 (by decide)
  have h2 := (C3_in_days_weekday 20368 9 0 "call bob in 2 days on friday" 2 (by decide)
    (by decide)).2 5 (by decide)
  exact ⟨h1.trans (by decide), h2.trans (by decide)⟩

/-- C5: weekday resolution uses `diff = (targetDow - currentDow + 7) mod 7`, advancing
a full week only when diff is 0 and the word `next` is present: whenever today is a
Tuesday, `pay bill on tuesday` resolves to today and `pay bill next tuesday` to
today+7. -/
theorem C5_weekday_same_day_vs_next (today nowHour nowMin : Nat)
    (h : dayOfWeek today = 2) :
    (parseNaturalLanguage today nowHour nowMin "pay bill on tuesday").dueDate =
      formatLocalDate today ∧
    (parseNaturalLanguage today nowHour nowMin "pay bill next tuesday").dueDate =
      formatLocalDate (today + 7) := by
  constructor
  · rw [parse_dueDate]
    unfold datePhase
    rw [show dateSignal (strData "pay bill on tuesday") = DateSig.rest none (some 2) false
        from by decide]
    show formatLocalDate (today + weekdayDiff 2 (dayOfWeek today) false) = _
    rw [h]
    norm_num [weekdayDiff]
  · rw [parse_dueDate]
    unfold datePhase
    rw [show dateSignal (strData "pay bill next tuesday") = DateSig.rest none (some 2) true
        from by decide]
    show formatLocalDate (today + weekdayDiff 2 (dayOfWeek today) true) = _
    rw [h]
    norm_num [weekdayDiff]

/-- C5 witness: pinned to Tuesday 2025-10-07 (day 20368). -/
theorem C5_witness :
    (parseNaturalLanguage 20368 9 0 "pay bill on tuesday").dueDate = "2025-10-07" ∧
    (parseNaturalLanguage 20368 9 0 "pay bill next tuesday").dueDate = "2025-10-14" := by
  have h := C5_weekday_same_day_vs_next 20368 9 0 (by decide)
  exact ⟨h.1.trans (by decide), h.2.trans (by decide)⟩

set_option linter.unnecessarySeqFocus false in
/-- The weekday loop returns the first index (in Sunday-through-Saturday order) whose
regex matches: the returned index tests true and all smaller indices test false. -/
theorem firstDay_least {cs : List Char} {i : Nat} (h : firstDay cs = some i) :
    dayTestIdx i cs = true ∧ ∀ j < i, dayTestIdx j cs = false := by
  unfold firstDay at h
  split_ifs at h with h0 h1 h2 h3 h4 h5 h6 <;>
    (injection h with hi; subst hi)
  · exact ⟨h0, fun j hj => absurd hj (by omega)⟩
  · exact ⟨h1, fun j hj => by interval_cases j <;> simp_all⟩
  · exact ⟨h2, fun j hj => by interval_cases j <;> simp_all⟩
  · exact ⟨h3, fun j hj => by interval_cases j <;> simp_all⟩
  · exact ⟨h4, fun j hj => by interval_cases j <;> simp_all⟩
  · exact ⟨h5, fun j hj => by interval_cases j <;> simp_all⟩
  · exact ⟨h6, fun j hj => by interval_cases j <;> simp_all⟩

/-- C10: when the weekday branch fires, the date is resolved from the weekday with the
lowest number in the fixed Sunday-through-Saturday scan order — not the weekday that
appears first in the text. -/
theorem C10_weekday_scan_order (today nowHour nowMin : Nat) (s : String) (i : Nat)
    (hne : noEarlyDate (strData s)) (hfd : firstDay (strData s) = some i) :
    dayTestIdx i (strData s) = true ∧ (∀ j < i, dayTestIdx j (strData s) = false) ∧
    (parseNaturalLanguage today nowHour nowMin s).dueDate =
      formatLocalDate (today +
        weekdayDiff i (dayOfWeek today) (containsWord (strData "next") (strData s))) := by
  obtain ⟨ht, hmin⟩ := firstDay_least hfd
  refine ⟨ht, hmin, ?_⟩
  rw [parse_dueDate]
  unfold datePhase
  rw [dateSignal_rest hne, hfd]
  cases him : inMatch (strData s) with
  | none => rfl
  | some isig => cases isig <;> rfl

/-- C10 witness: in `task tuesday monday` the text mentions Tuesday first, but the
date resolves to the upcoming Monday (index 1), 2025-10-13 from Tuesday 2025-10-07. -/
theorem C10_witness :
    (parseNaturalLanguage 20368 9 0 "task tuesday monday").dueDate = "2025-10-13" ∧
    dayTestIdx 2 (strData "task tuesday monday") = true := by
  have h := C10_weekday_scan_order 20368 9 0 "task tuesday monday" 1 (by decide)
    (by decide)
  exact ⟨h.2.2.trans (by decide), by decide⟩

/-- The `dueDate` argument of `detectPriority` is never read: the result is the same
for any two values. -/
theorem detectPriority_const (text d1 d2 : String) :
    detectPriority text d1 = detectPriority text d2 :=
  rfl

/-- The parse result as an explicit record over the phase functions. -/
theorem parse_eq (t h m : Nat) (s : String) :
    parseNaturalLanguage t h m s =
      { title := titleOf s
        dueDate := (datePhase (strData s) t h m (timePhase (strData s)).1).date
        dueTime := (datePhase (strData s) t h m (timePhase (strData s)).1).time
        priority := detectPriority s
          (datePhase (strData s) t h m (timePhase (strData s)).1).date
        category := detectCategory s
        recurrence := (recurrencePhase (strData s)).kind
        recurrenceInterval := (recurrencePhase (strData s)).int
        recurrenceUnit := (recurrencePhase (strData s)).unit
        recurrenceDays := (recurrencePhase (strData s)).days
        confidence := confOf (timePhase (strData s))
          (datePhase (strData s) t h m (timePhase (strData s)).1)
          (recurrencePhase (strData s)) (detectCategory s)
          (detectPriority s (datePhase (strData s) t h m (timePhase (strData s)).1).date)
          s } :=
  rfl

/-- Projection of `parseNaturalLanguage`: the title. -/
theorem parse_title (t h m : Nat) (s : String) :
    (parseNaturalLanguage t h m s).title = titleOf s := by
  rw [parse_eq]

/-- Projection of `parseNaturalLanguage`: the confidence. -/
theorem parse_confidence (t h m : Nat) (s : String) :
    (parseNaturalLanguage t h m s).confidence =
      confOf (timePhase (strData s))
        (datePhase (strData s) t h m (timePhase (strData s)).1)
        (recurrencePhase (strData s)) (detectCategory s)
        (detectPriority s (datePhase (strData s) t h m (timePhase (strData s)).1).date)
        s := by
  rw [parse_eq]

/-- A global strip whose matcher never fires anywhere leaves the string unchanged. -/
theorem stripGo_id {m : Option Char → List Char → Option (List Char)} :
    ∀ (s : List Char) (fuel : Nat) (prev : Option Char),
      scanFrom m prev s = none → stripGo m fuel prev s = s := by
  intro s
  induction s with
  | nil =>
    intro fuel prev _
    cases fuel <;> rfl
  | cons c cs ih =>
    intro fuel prev h
    obtain ⟨h1, h2⟩ := scanFrom_cons_eq_none h
    cases fuel with
    | zero => rfl
    | succ fuel =>
      unfold stripGo
      rw [h1]
      show c :: stripGo m fuel (some c) cs = c :: cs
      rw [ih fuel (some c) h2]

/-- A rule that occurs nowhere leaves the string unchanged. -/
theorem applyRule_id {r : StripRule} {s : List Char} (h : occursRule r s = false) :
    applyRule r s = s := by
  obtain ⟨anch, m⟩ := r
  cases anch with
  | true =>
    simp only [occursRule, if_true] at h
    simp only [applyRule, if_true]
    cases hm : m none s with
    | some rest => rw [hm] at h; simp at h
    | none => rfl
  | false =>
    simp only [occursRule, Bool.false_eq_true, if_false] at h
    simp only [applyRule, Bool.false_eq_true, if_false]
    unfold stripAll
    cases hm : scanFrom m none s with
    | some rest => rw [hm] at h; simp at h
    | none => exact stripGo_id s s.length none hm

/-- A rule pipeline none of whose rules occurs leaves the string unchanged. -/
theorem applyRules_id :
    ∀ (rules : List StripRule) (s : List Char),
      (∀ r ∈ rules, occursRule r s = false) → applyRules rules s = s := by
  intro rules
  induction rules with
  | nil => intro s _; rfl
  | cons r rs ih =>
    intro s h
    unfold applyRules
    rw [applyRule_id (h r (List.mem_cons_self r rs))]
    exact ih s fun r' hr' => h r' (List.mem_cons_of_mem r hr')

/-- The input contains no token recognizable by any phase of the parser: no named or
numeric time, no date phrase or weekday, no recurrence pattern, no category or
priority keyword, and no strip-rule match. -/
def NoTok (s : String) : Prop :=
  namedTime (strData s) = none ∧
  numericTime (strData s) = none ∧
  dateSignal (strData s) = DateSig.rest none none false ∧
  recurrencePhase (strData s) = noRec ∧
  detectCategory s = Category.other ∧
  detectPriority s "" = Priority.medium ∧
  ∀ r ∈ stripRules, occursRule r (strData s) = false

instance (s : String) : Decidable (NoTok s) := by
  unfold NoTok
  infer_instance

/-- C1 counterexample: `xyz` has no recognizable token, yet the parse result has
confidence 25 (the title-extraction increment), not 0, and its title is the
capitalized `Xyz`, not the raw input. -/
theorem C1_counterexample :
    (parseNaturalLanguage 20368 9 0 "xyz").category = Category.other ∧
    (parseNaturalLanguage 20368 9 0 "xyz").priority = Priority.medium ∧
    (parseNaturalLanguage 20368 9 0 "xyz").recurrence = Recurrence.none ∧
    (parseNaturalLanguage 20368 9 0 "xyz").dueDate = formatLocalDate 20368 ∧
    (parseNaturalLanguage 20368 9 0 "xyz").confidence = 25 ∧
    (parseNaturalLanguage 20368 9 0 "xyz").confidence ≠ 0 ∧
    (parseNaturalLanguage 20368 9 0 "xyz").title = "Xyz" ∧
    (parseNaturalLanguage 20368 9 0 "xyz").title ≠ "xyz" := by
  refine ⟨rfl, rfl, rfl, rfl, rfl, ?_, rfl, ?_⟩ <;> decide

/-- C1 amended: on token-free input every classified field is the default and dueDate
is today, but the title/confidence pair depends on whether whitespace normalization
leaves the input empty: an empty result falls back to the raw input with confidence 0,
a non-empty result is capitalized and earns the +25 title increment. -/
theorem C1_no_token_defaults (today nowHour nowMin : Nat) (s : String) (h : NoTok s) :
    (parseNaturalLanguage today nowHour nowMin s).category = Category.other ∧
    (parseNaturalLanguage today nowHour nowMin s).priority = Priority.medium ∧
    (parseNaturalLanguage today nowHour nowMin s).recurrence = Recurrence.none ∧
    (parseNaturalLanguage today nowHour nowMin s).recurrenceInterval = none ∧
    (parseNaturalLanguage today nowHour nowMin s).recurrenceUnit = none ∧
    (parseNaturalLanguage today nowHour nowMin s).recurrenceDays = none ∧
    (parseNaturalLanguage today nowHour nowMin s).dueDate = formatLocalDate today ∧
    (parseNaturalLanguage today nowHour nowMin s).dueTime = none ∧
    (parseNaturalLanguage today nowHour nowMin s).title =
      (if trimL (collapseWs (strData s)) = [] then s
       else String.mk (ucFirst (trimL (collapseWs (strData s))))) ∧
    (parseNaturalLanguage today nowHour nowMin s).confidence =
      (if trimL (collapseWs (strData s)) = [] then 0 else 25) := by
  obtain ⟨hnt, hnum, hsig, hrec, hcat, hprio, hrules⟩ := h
  have htp : timePhase (strData s) = (none, 0) := by
    unfold timePhase
    rw [hnt, hnum]
  have hdp : datePhase (strData s) today nowHour nowMin (timePhase (strData s)).1 =
      ⟨formatLocalDate today, none, 0⟩ := by
    unfold datePhase
    rw [hsig, htp]
    rfl
  have hstrip : titleStrip (strData s) = trimL (collapseWs (strData s)) := by
    unfold titleStrip
    rw [applyRules_id stripRules (strData s) hrules]
  have hprio2 : detectPriority s
      (datePhase (strData s) today nowHour nowMin (timePhase (strData s)).1).date =
      Priority.medium :=
    (detectPriority_const s _ "").trans hprio
  refine ⟨?_, ?_, ?_, ?_, ?_, ?_, ?_, ?_, ?_, ?_⟩
  · rw [parse_category]; exact hcat
  · rw [parse_priority]; exact hprio2
  · rw [parse_recurrence, hrec]; rfl
  · rw [parse_interval, hrec]; rfl
  · rw [parse_unit, hrec]; rfl
  · rw [parse_days, hrec]; rfl
  · rw [parse_dueDate, hdp]
  · rw [parse_dueTime, hdp]
  · rw [parse_title]
    unfold titleOf
    rw [hstrip]
  · rw [parse_confidence, hdp, htp, hrec, hcat]
    have hpr : detectPriority s (DateR.mk (formatLocalDate today) none 0).date =
        Priority.medium :=
      (detectPriority_const s _ "").trans hprio
    unfold confOf titleConfOf
    rw [hpr, hstrip]
    by_cases he : trimL (collapseWs (strData s)) = []
    · rw [if_pos he]
      norm_num [noRec]
    · rw [if_neg he]
      norm_num [noRec]

/-- C1 witness: `xyz` is token-free, and the amended statement instantiated there
gives the defaults with confidence 25. -/
theorem C1_witness :
    (parseNaturalLanguage 20368 9 0 "xyz").category = Category.other ∧
    (parseNaturalLanguage 20368 9 0 "xyz").dueDate = formatLocalDate 20368 ∧
    (parseNaturalLanguage 20368 9 0 "xyz").dueTime = none ∧
    (parseNaturalLanguage 20368 9 0 "xyz").confidence = 25 := by
  have h := C1_no_token_defaults 20368 9 0 "xyz" (by decide)
  exact ⟨h.1, h.2.2.2.2.2.2.1, h.2.2.2.2.2.2.2.1,
    h.2.2.2.2.2.2.2.2.2.trans (by decide)⟩
